import Mathlib

/-!
# go-postmark: a verification development

A shallow embedding of `postmark/email.go` and `postmark/postmark.go`.

Conventions of the embedding

* A Go `string` / `[]byte` is a list of bytes (`GoString`).
* A `*string` is an optional address into a `Heap` of strings; `nil` is `none`.
  Functions that write through a pointer take the heap and return the new one.
* A nil-pointer dereference is the outcome `Outcome.panic`.
* A JSON text is represented by the value it denotes (`JSON`); bytes that are not
  a well-formed JSON text are `none`.
* A Go result list `(x, err)` is a tuple or a structure with optional components;
  `none` is nil.
* The standard library is modelled where the package depends on what it does
  (encoding/base64, the string coercion and key folding of encoding/json, header keys and
  method validation of net/http) and taken as given elsewhere (`Stdlib`, `Body`).
-/

namespace Postmark

/-! ## Bytes and strings -/

abbrev Byte := Fin 256

abbrev GoString := List Byte

/-- The bytes of an ASCII literal. -/
def asc (s : String) : GoString := s.toList.map (fun c => Fin.ofNat c.toNat)

/-! ## encoding/base64, `StdEncoding` (standard alphabet, `=` padding, not strict) -/

/-- The alphabet `encodeStd` of encoding/base64. -/
def encodeStd : GoString :=
  asc "ABCDEFGHIJKLMNOPQRSTUVWXYZabcdefghijklmnopqrstuvwxyz0123456789+/"

def padChar : Byte := 61

/-- The character standing for the 6-bit value `i`. -/
def encChar (i : Nat) : Byte := encodeStd.getD i 0

/-- The table `decodeMap`: the 6-bit value of an alphabet character, `none` (0xff in
the Go table) for every other byte. -/
def decodeMap (c : Byte) : Option Nat :=
  let i := encodeStd.indexOf c
  if i < 64 then some i else none

/-- The four characters of a full 3-byte group:
`val := b0<<16 | b1<<8 | b2`, characters `val>>18&0x3F`, `val>>12&0x3F`, `val>>6&0x3F`,
`val&0x3F`. -/
def encodeGroup (b0 b1 b2 : Nat) : List Nat :=
  let val := b0 * 65536 + b1 * 256 + b2
  [val / 262144 % 64, val / 4096 % 64, val / 64 % 64, val % 64]

/-- The method `Encoding.Encode` for `StdEncoding`: full groups of three bytes, then the
remainder of one or two bytes with padding. -/
def encodeBytes : GoString → GoString
  | [] => []
  | [b0] =>
    let g := encodeGroup b0.val 0 0
    [encChar (g.getD 0 0), encChar (g.getD 1 0), padChar, padChar]
  | [b0, b1] =>
    let g := encodeGroup b0.val b1.val 0
    [encChar (g.getD 0 0), encChar (g.getD 1 0), encChar (g.getD 2 0), padChar]
  | b0 :: b1 :: b2 :: rest =>
    let g := encodeGroup b0.val b1.val b2.val
    encChar (g.getD 0 0) :: encChar (g.getD 1 0) :: encChar (g.getD 2 0) ::
      encChar (g.getD 3 0) :: encodeBytes rest

/-- The function `encodeBase64` of email.go. -/
def encodeBase64 (s : GoString) : GoString := encodeBytes s

/-- An error value of the standard library, told apart by a tag. -/
inductive StdError where
  | corruptInput      -- base64.CorruptInputError
  | jsonSyntax        -- *json.SyntaxError, io.EOF and io.ErrUnexpectedEOF of a decoder
  | jsonType          -- *json.UnmarshalTypeError
  | jsonUnsupported   -- *json.UnsupportedTypeError and other marshalling errors
  | timeParse         -- *time.ParseError
  | urlParse          -- *url.Error with Op "parse"
  | invalidMethod     -- net/http: invalid method
  | other (tag : Nat) -- anything else (transport and read errors)
  deriving DecidableEq, Repr

def isNewline (c : Byte) : Bool := c.val == 10 || c.val == 13

/-- Skipping `\r` and `\n`, as the padding branch of `decodeQuantum` does. -/
def skipNewlines : GoString → GoString
  | [] => []
  | c :: cs => if isNewline c then skipNewlines cs else c :: cs

/-- What one call of `decodeQuantum` yields. -/
inductive Quantum where
  | done                                     -- end of input at j = 0
  | corrupt                                  -- CorruptInputError, nothing written
  | full (dbuf : List Nat) (rest : GoString) -- four values read
  | padded (dbuf : List Nat) (trailing : Bool) -- padding reached after dbuf; trailing garbage
  deriving DecidableEq, Repr

/-- The scanning loop of `decodeQuantum`; `dbuf` holds the values read so far
(`j = dbuf.length`). -/
def scanQuantum : List Nat → GoString → Quantum
  | dbuf, [] => if dbuf.length = 0 then .done else .corrupt
  | dbuf, c :: cs =>
    match decodeMap c with
    | some v =>
      if dbuf.length = 3 then .full (dbuf ++ [v]) cs else scanQuantum (dbuf ++ [v]) cs
    | none =>
      if isNewline c then scanQuantum dbuf cs
      else if c ≠ padChar then .corrupt
      else if dbuf.length < 2 then .corrupt
      else if dbuf.length = 2 then
        match skipNewlines cs with
        | [] => .corrupt
        | d :: ds =>
          if d ≠ padChar then .corrupt
          else .padded dbuf (decide (skipNewlines ds ≠ []))
      else .padded dbuf (decide (skipNewlines cs ≠ []))

/-- The bytes written for `dlen` values:
`val := d0<<18 | d1<<12 | d2<<6 | d3`, bytes `val>>16`, `val>>8`, `val`, of which
`dlen - 1` are kept. -/
def quantumBytes (dbuf : List Nat) : GoString :=
  let val := dbuf.getD 0 0 * 262144 + dbuf.getD 1 0 * 4096 + dbuf.getD 2 0 * 64 + dbuf.getD 3 0
  ([val / 65536 % 256, val / 256 % 256, val % 256].take (dbuf.length - 1)).map Fin.ofNat

/-- The method `Encoding.Decode`: quantum after quantum; the bytes decoded before an
error are returned with the error. Every quantum consumes input, so `fuel` = length of
the input suffices. -/
def decodeLoop : Nat → GoString → GoString × Option StdError
  | 0, _ => ([], none)
  | fuel + 1, src =>
    match scanQuantum [] src with
    | .done => ([], none)
    | .corrupt => ([], some .corruptInput)
    | .padded dbuf trailing =>
      (quantumBytes dbuf, if trailing then some .corruptInput else none)
    | .full dbuf rest =>
      let r := decodeLoop fuel rest
      (quantumBytes dbuf ++ r.1, r.2)

/-- The method `Encoding.DecodeString` for `StdEncoding`. -/
def decodeString (s : GoString) : GoString × Option StdError := decodeLoop s.length s

/-- The function `decodeBase64` of email.go: `string(data), err`. -/
def decodeBase64 (s : GoString) : GoString × Option StdError := decodeString s


/-! ## unicode/utf8 and the coercion of strings by encoding/json -/

/-- The tables `first` and `acceptRanges` of unicode/utf8: for a leading byte, the length
of its sequence and the accepted range of the second byte; `none` for a byte that leads
no sequence. -/
def utf8Lead (b : Byte) : Option (Nat × Nat × Nat) :=
  let x := b.val
  if x < 0x80 then some (1, 0, 0)
  else if x < 0xC2 then none
  else if x ≤ 0xDF then some (2, 0x80, 0xBF)
  else if x = 0xE0 then some (3, 0xA0, 0xBF)
  else if x = 0xED then some (3, 0x80, 0x9F)
  else if x ≤ 0xEF then some (3, 0x80, 0xBF)
  else if x = 0xF0 then some (4, 0x90, 0xBF)
  else if x ≤ 0xF3 then some (4, 0x80, 0xBF)
  else if x = 0xF4 then some (4, 0x80, 0x8F)
  else none

def isCont (b : Byte) : Bool := 0x80 ≤ b.val && b.val ≤ 0xBF

/-- The size returned by `utf8.DecodeRuneInString`, with 0 standing for the answer
`(RuneError, 1)` given for an invalid or truncated sequence. -/
def runeLen : GoString → Nat
  | [] => 0
  | b :: rest =>
    match utf8Lead b with
    | none => 0
    | some (n, lo, hi) =>
      if n = 1 then 1
      else
        match rest with
        | [] => 0
        | b1 :: rest1 =>
          if lo ≤ b1.val ∧ b1.val ≤ hi ∧ (rest1.take (n - 2)).length = n - 2
              ∧ (rest1.take (n - 2)).all isCont = true then n
          else 0

/-- The bytes of U+FFFD, the replacement rune. -/
def replacementRune : GoString := [0xEF, 0xBF, 0xBD]

/-- Walks the string as encoding/json does when it writes a string: `skip` bytes of the
current rune are still to be copied; at a rune boundary a byte that starts no valid
sequence is replaced by U+FFFD. -/
def coerceFrom : Nat → GoString → GoString
  | _, [] => []
  | skip + 1, b :: rest => b :: coerceFrom skip rest
  | 0, b :: rest =>
    match runeLen (b :: rest) with
    | 0 => replacementRune ++ coerceFrom 0 rest
    | n + 1 => b :: coerceFrom n rest

/-- A string as encoding/json writes it: coerced to valid UTF-8, invalid bytes replaced
by the replacement rune. -/
def toValidUTF8 (s : GoString) : GoString := coerceFrom 0 s

/-- The folding of encoding/json (`foldName`), on the keys that can meet an ASCII field
name: ASCII letters to upper case, U+017F to S and U+212A to K (the two runes whose
fold orbit holds an ASCII letter); other bytes are kept. `skip` bytes of a folded rune are
dropped. -/
def foldFrom : Nat → GoString → GoString
  | _, [] => []
  | skip + 1, _ :: rest => foldFrom skip rest
  | 0, c :: rest =>
    if c.val = 0xC5 ∧ rest.head?.map Fin.val = some 0xBF then
      83 :: foldFrom 1 rest
    else if c.val = 0xE2 ∧ rest.head?.map Fin.val = some 0x84
        ∧ (rest.drop 1).head?.map Fin.val = some 0xAA then
      75 :: foldFrom 2 rest
    else if 97 ≤ c.val ∧ c.val ≤ 122 then (Fin.ofNat (c.val - 32)) :: foldFrom 0 rest
    else c :: foldFrom 0 rest

def foldName (s : GoString) : GoString := foldFrom 0 s

/-- Whether the object key `k` selects the struct field called `name`: exact match or
match under folding (no two fields of a struct in this package fold to the same name). -/
def keyMatches (k : GoString) (name : String) : Bool :=
  k == asc name || foldName k == foldName (asc name)

/-! ## JSON values -/

/-- A JSON value. A number written as an integer literal is `num`; any other number
literal (fraction or exponent) is `numOther`, with its text. Strings are the decoded,
valid UTF-8 contents. -/
inductive JSON where
  | null
  | bool (b : Bool)
  | num (n : Int)
  | numOther (text : GoString)
  | str (s : GoString)
  | arr (items : List JSON)
  | obj (fields : List (GoString × JSON))

/-! ## Memory -/

abbrev Ptr := Nat

/-- The strings that `*string` values point to; `next` is the next fresh address. -/
structure Heap where
  next : Ptr
  mem : Ptr → GoString

namespace Heap

def load (h : Heap) (p : Ptr) : GoString := h.mem p

def store (h : Heap) (p : Ptr) (s : GoString) : Heap :=
  { h with mem := fun q => if q = p then s else h.mem q }

/-- The allocation `new(string)` followed by a store. -/
def alloc (h : Heap) (s : GoString) : Ptr × Heap :=
  (h.next, { next := h.next + 1, mem := fun q => if q = h.next then s else h.mem q })

end Heap

/-- How a call ends: it returns, or it panics (nil pointer dereference). -/
inductive Outcome (α : Type) where
  | ret (a : α)
  | panic

/-! ## email.go: Attachment -/

/-- The struct `Attachment` (and its alias `attachment`): four `*string` fields. -/
structure Attachment where
  Name : Option Ptr := none
  Content : Option Ptr := none
  ContentType : Option Ptr := none
  ContentID : Option Ptr := none
  deriving DecidableEq, Repr

/-- One `*string` field with `omitempty`: a nil pointer is omitted, any other pointer
gives the string it points to (an empty string is still written). -/
def stringPtrField (h : Heap) (name : String) (p : Option Ptr) : List (GoString × JSON) :=
  match p with
  | none => []
  | some q => [(asc name, .str (toValidUTF8 (h.load q)))]

/-- The call `json.Marshal(temp)` for a value of the alias type `attachment`, which has no
`MarshalJSON` method: the fields in declaration order. It cannot fail. -/
def marshalAttachmentStruct (h : Heap) (t : Attachment) : JSON :=
  .obj (stringPtrField h "Name" t.Name ++ stringPtrField h "Content" t.Content
    ++ stringPtrField h "ContentType" t.ContentType ++ stringPtrField h "ContentID" t.ContentID)

/-- The method `(*Attachment).MarshalJSON`.
`temp := attachment(*a)` copies the four pointers, so `temp.Content` and `a.Content` are the
same address; the assignment `*temp.Content = encodeBase64(*a.Content)` writes through
it. Returns the heap after the call, the JSON produced and the error. -/
def Attachment.MarshalJSON (h : Heap) (a : Attachment) :
    Outcome (Heap × JSON × Option StdError) :=
  let temp : Attachment := a
  match a.Content, temp.Content with
  | some src, some dst =>
    let h1 := h.store dst (encodeBase64 (h.load src))
    .ret (h1, marshalAttachmentStruct h1 temp, none)
  | _, _ => .panic

/-- Decoding one JSON value into a `*string` field: `null` sets the pointer to nil; for
any other value the decoder first makes the pointer non-nil (allocating an empty string),
then stores a JSON string and records a type error for anything else. -/
def decodeStringPtr (h : Heap) (cur : Option Ptr) (v : JSON) :
    Heap × Option Ptr × Option StdError :=
  match v with
  | .null => (h, none, none)
  | .str s =>
    match cur with
    | some p => (h.store p s, some p, none)
    | none => let r := h.alloc s; (r.2, some r.1, none)
  | _ =>
    match cur with
    | some p => (h, some p, some .jsonType)
    | none => let r := h.alloc []; (r.2, some r.1, some .jsonType)

/-- The first error wins (`saveError`). -/
def saveError (saved new : Option StdError) : Option StdError :=
  match saved with
  | some e => some e
  | none => new

/-- One key of an object decoded into an `attachment`. Unknown keys are skipped. -/
def decodeAttachmentField (st : Heap × Attachment × Option StdError) (kv : GoString × JSON) :
    Heap × Attachment × Option StdError :=
  let h := st.1
  let t := st.2.1
  if keyMatches kv.1 "Name" then
    let r := decodeStringPtr h t.Name kv.2
    (r.1, { t with Name := r.2.1 }, saveError st.2.2 r.2.2)
  else if keyMatches kv.1 "Content" then
    let r := decodeStringPtr h t.Content kv.2
    (r.1, { t with Content := r.2.1 }, saveError st.2.2 r.2.2)
  else if keyMatches kv.1 "ContentType" then
    let r := decodeStringPtr h t.ContentType kv.2
    (r.1, { t with ContentType := r.2.1 }, saveError st.2.2 r.2.2)
  else if keyMatches kv.1 "ContentID" then
    let r := decodeStringPtr h t.ContentID kv.2
    (r.1, { t with ContentID := r.2.1 }, saveError st.2.2 r.2.2)
  else st

/-- The call `json.Unmarshal(b, &temp)` for `temp` of type `attachment`; `b = none` is
a text that is not well-formed JSON, rejected before anything is stored. -/
def unmarshalAttachmentStruct (h : Heap) (temp : Attachment) (b : Option JSON) :
    Heap × Attachment × Option StdError :=
  match b with
  | none => (h, temp, some .jsonSyntax)
  | some .null => (h, temp, none)
  | some (.obj fields) => fields.foldl decodeAttachmentField (h, temp, none)
  | some _ => (h, temp, some .jsonType)

/-- The method `(*Attachment).UnmarshalJSON`. After `*a = Attachment(temp)` the pointers
`a.Content` and `temp.Content` are the same address, which the last assignment writes
through, discarding the error of `decodeBase64`. Returns the heap, the new value of `*a`
and the error. -/
def Attachment.UnmarshalJSON (h : Heap) (a : Attachment) (b : Option JSON) :
    Outcome (Heap × Attachment × Option StdError) :=
  let temp : Attachment := {}
  match unmarshalAttachmentStruct h temp b with
  | (h1, _, some err) => .ret (h1, a, some err)
  | (h1, temp1, none) =>
    let a1 : Attachment := temp1
    match a1.Content, temp1.Content with
    | some dst, some src =>
      .ret (h1.store dst (decodeBase64 (h1.load src)).1, a1, none)
    | _, _ => .panic

/-- The strings an attachment holds, read through the heap. -/
structure AttachmentView where
  Name : Option GoString
  Content : Option GoString
  ContentType : Option GoString
  ContentID : Option GoString
  deriving DecidableEq, Repr

def Attachment.view (h : Heap) (a : Attachment) : AttachmentView :=
  { Name := a.Name.map h.load, Content := a.Content.map h.load,
    ContentType := a.ContentType.map h.load, ContentID := a.ContentID.map h.load }

/-! ## net/url, time, net/http: the parts the package touches -/

/-- A parsed URL (`url.URL`). -/
structure URL where
  Scheme : GoString := []
  Opaque : GoString := []
  Host : GoString := []
  Path : GoString := []
  RawQuery : GoString := []
  Fragment : GoString := []
  deriving DecidableEq, Repr

/-- A `time.Time`: the zero value, or an instant. -/
inductive GoTime where
  | zero
  | instant (unixNano : Int)
  deriving DecidableEq, Repr

/-- Functions of net/url, net/http and time that the package calls and that are taken as
given. -/
structure Stdlib where
  /-- The function `url.Parse`; `none` is a `*url.Error` with Op "parse". -/
  urlParse : GoString → Option URL
  /-- The method `(*URL).ResolveReference`. -/
  resolveReference : URL → URL → URL
  /-- The method `(*URL).String`. -/
  urlString : URL → GoString
  /-- The URL that `http.NewRequest` derives from its string argument. -/
  requestURL : GoString → Option URL
  /-- The method `(*Time).UnmarshalJSON` on the contents of a JSON string (RFC 3339). -/
  parseTime : GoString → Option GoTime

/-- The bytes of an HTTP token (`httpguts.IsTokenRune`, `validHeaderFieldByte`): letters,
digits and the marks ! # $ % & ' * + - . ^ _ backquote | ~. -/
def isTokenByte (b : Byte) : Bool :=
  let x := b.val
  (48 ≤ x && x ≤ 57) || (65 ≤ x && x ≤ 90) || (97 ≤ x && x ≤ 122)
    || [33, 35, 36, 37, 38, 39, 42, 43, 45, 46, 94, 95, 96, 124, 126].contains x

/-- The function `validMethod` of net/http. -/
def validMethod (method : GoString) : Bool := method.length > 0 && method.all isTokenByte

/-- The second loop of `textproto.canonicalMIMEHeaderKey`: upper case at the start and
after each dash, lower case elsewhere. -/
def canonFrom : Bool → GoString → GoString
  | _, [] => []
  | upper, c :: cs =>
    let c1 : Byte :=
      if upper && (97 ≤ c.val && c.val ≤ 122) then Fin.ofNat (c.val - 32)
      else if !upper && (65 ≤ c.val && c.val ≤ 90) then Fin.ofNat (c.val + 32)
      else c
    c1 :: canonFrom (c1.val == 45) cs

/-- The function `textproto.CanonicalMIMEHeaderKey`: a key holding a space or a byte that
is no token byte is returned unchanged. -/
def canonicalMIMEHeaderKey (k : GoString) : GoString :=
  if k.all isTokenByte then canonFrom true k else k

/-- An `http.Header`: canonical keys with their values. -/
abbrev HTTPHeader := List (GoString × List GoString)

/-- The method `Header.Set`: the key's values are replaced by the single value. -/
def HTTPHeader.set (hd : HTTPHeader) (key value : GoString) : HTTPHeader :=
  (canonicalMIMEHeaderKey key, [value])
    :: List.filter (fun kv => kv.1 != canonicalMIMEHeaderKey key) hd

/-- The method `Header.Get`: the first value of the key, or the empty string. -/
def HTTPHeader.get (hd : HTTPHeader) (key : GoString) : GoString :=
  match List.find? (fun kv => kv.1 == canonicalMIMEHeaderKey key) hd with
  | some (_, v :: _) => v
  | _ => []

/-- An `http.Request`. `Body` is the payload: `none` for a nil body, otherwise the JSON
document written into the buffer (by `json.Encoder.Encode`, which ends it with a newline). -/
structure Request where
  Method : GoString
  URL : URL
  Header : HTTPHeader
  Body : Option JSON

/-- The function `http.NewRequest`: an empty method means GET, an invalid method and an
unparsable URL are errors; the request starts with an empty header. -/
def httpNewRequest (L : Stdlib) (method url : GoString) (body : Option JSON) :
    Option Request × Option StdError :=
  let m := if method = [] then asc "GET" else method
  if validMethod m = false then (none, some .invalidMethod)
  else
    match L.requestURL url with
    | none => (none, some .urlParse)
    | some u => (some { Method := m, URL := u, Header := [], Body := body }, none)

/-- The body of a response, as its readers see it. A response obtained from an
`http.Client` always has a body (net/http's guarantee). -/
structure Body where
  /-- The error `ioutil.ReadAll` meets; `none` when the body is read to its end. -/
  readErr : Option StdError
  /-- The JSON value the whole payload denotes, as `json.Unmarshal` reads it; `none` when
  the payload is not one well-formed JSON text (an empty payload among others). -/
  text : Option JSON
  /-- What `json.Decoder.Decode` reads from the stream: its first JSON value, or the error
  (io.EOF on an empty body, a syntax error, a read error). -/
  first : Except StdError JSON

/-- An `http.Response`: the fields the package reads. A `*http.Response` is represented
by the response it points to; what the JSON decoder may write into the pointee is not
tracked. -/
structure Response where
  StatusCode : Int
  Body : Body

/-! ## postmark.go -/

def headerContentType : GoString := asc "Content-Type"
def headerAccept : GoString := asc "Accept"
def headerServerToken : GoString := asc "X-Postmark-Server-Token"
def headerAccountToken : GoString := asc "X-Postmark-Account-Token"
def acceptType : GoString := asc "application/json"
def contentType : GoString := asc "application/json"

/-- The value of a field of type `*http.Response`: nil, the response it was set to, or a
response freshly allocated by the JSON decoder. -/
inductive ResponseRef where
  | nil
  | ptr (r : Response)
  | fresh

/-- The struct `ErrorResponse`. All three fields are exported and none is tagged
`json:"-"`, so all three are JSON members: Response, ErrorCode and Message. -/
structure ErrorResponse where
  Response : ResponseRef
  ErrorCode : Int
  Message : GoString

/-- A Go `error`: an error of the standard library, or an `*ErrorResponse`. -/
inductive GoError where
  | std (e : StdError)
  | api (e : ErrorResponse)

/-- Decoding a JSON value into an `int` field: `null` changes nothing, an integer literal
within 64 bits is stored, anything else is a type error and changes nothing. -/
def decodeIntField (cur : Int) (v : JSON) : Int × Option StdError :=
  match v with
  | .null => (cur, none)
  | .num n =>
    if -9223372036854775808 ≤ n ∧ n ≤ 9223372036854775807 then (n, none)
    else (cur, some .jsonType)
  | _ => (cur, some .jsonType)

/-- Decoding a JSON value into a `string` field. -/
def decodeStringField (cur : GoString) (v : JSON) : GoString × Option StdError :=
  match v with
  | .null => (cur, none)
  | .str s => (s, none)
  | _ => (cur, some .jsonType)

/-- Decoding a JSON value into a `*http.Response` field: `null` sets the pointer to nil;
for any other value the decoder keeps a non-nil pointer and replaces a nil one by a fresh
allocation, then decodes into the pointee. Whether that inner decoding fails depends on
`http.Response` and is not tracked: the error of `json.Unmarshal` is discarded by the only
caller. -/
def decodeResponseField (cur : ResponseRef) (v : JSON) : ResponseRef :=
  match v with
  | .null => .nil
  | _ =>
    match cur with
    | .nil => .fresh
    | r => r

/-- One key of an object decoded into an `ErrorResponse`; the flag tells whether a type
error was recorded for the ErrorCode or Message member. -/
def decodeErrorResponseField (st : ErrorResponse × Bool) (kv : GoString × JSON) :
    ErrorResponse × Bool :=
  let er := st.1
  if keyMatches kv.1 "Response" then
    ({ er with Response := decodeResponseField er.Response kv.2 }, st.2)
  else if keyMatches kv.1 "ErrorCode" then
    let r := decodeIntField er.ErrorCode kv.2
    ({ er with ErrorCode := r.1 }, st.2 || r.2.isSome)
  else if keyMatches kv.1 "Message" then
    let r := decodeStringField er.Message kv.2
    ({ er with Message := r.1 }, st.2 || r.2.isSome)
  else st

/-- The call `json.Unmarshal(data, er)` for `er` of type `*ErrorResponse`: the record
after the call, and whether an error is known to be returned. -/
def unmarshalErrorResponse (er : ErrorResponse) (b : Option JSON) : ErrorResponse × Bool :=
  match b with
  | none => (er, true)
  | some .null => (er, false)
  | some (.obj fields) => fields.foldl decodeErrorResponseField (er, false)
  | some _ => (er, true)

/-- The function `CheckResponse`; `none` is the nil error. `ioutil.ReadAll` never returns
a nil slice, so `data != nil` holds whenever `err == nil`; the error of `json.Unmarshal`
is discarded. -/
def CheckResponse (r : Response) : Option GoError :=
  let c := r.StatusCode
  if 200 ≤ c ∧ c ≤ 299 then none
  else
    let er : ErrorResponse := { Response := .ptr r, ErrorCode := 0, Message := [] }
    match r.Body.readErr with
    | none => some (.api (unmarshalErrorResponse er r.Body.text).1)
    | some _ => some (.api er)

/-- A `Client`. `client` is the method `Do` of the `*http.Client`: it returns a response
or an error. `BaseURL` is a pointer and may be nil. -/
structure Client where
  client : Request → Response ⊕ GoError
  BaseURL : Option URL
  ServerToken : GoString
  AccountToken : GoString

/-- What `Client.NewRequest` returns, and the heap it leaves. -/
structure NewRequestResult where
  heap : Heap
  req : Option Request
  err : Option GoError

/-- The method `Client.NewRequest`. The body is an `interface{}`: `none` is the nil
interface; for any other body `marshal` is what `json.NewEncoder(buf).Encode(body)` does
with it: it may write to the heap (through `MarshalJSON` methods), fail, or panic. -/
def Client.NewRequest {B : Type} (L : Stdlib) (c : Client) (h : Heap) (method path : GoString)
    (body : Option B) (marshal : Heap → B → Outcome (Heap × JSON × Option StdError)) :
    Outcome NewRequestResult :=
  match L.urlParse path with
  | none => .ret { heap := h, req := none, err := some (.std .urlParse) }
  | some rel =>
    match c.BaseURL with
    | none => .panic
    | some base =>
      let u := L.resolveReference base rel
      let finish (h1 : Heap) (buf : Option JSON) : Outcome NewRequestResult :=
        match httpNewRequest L method (L.urlString u) buf with
        | (_, some e) => .ret { heap := h1, req := none, err := some (.std e) }
        | (req, none) => .ret { heap := h1, req := req, err := none }
      match body with
      | none => finish h none
      | some b =>
        match marshal h b with
        | .panic => .panic
        | .ret (h1, _, some e) => .ret { heap := h1, req := none, err := some (.std e) }
        | .ret (h1, j, none) => finish h1 (some j)

/-- What `Client.Do` returns, with the destination `v` after the call and the requests
that were handed to the transport. -/
structure DoResult (V : Type) where
  v : Option V
  resp : Option Response
  err : Option GoError
  sent : List Request

/-- The call `json.NewDecoder(res.Body).Decode(v)`: `decode` is how a JSON value is stored
into a destination of this type. -/
def decodeBody {V : Type} (body : Body) (dst : V) (decode : JSON → V → V × Option StdError) :
    V × Option StdError :=
  match body.first with
  | .error e => (dst, some e)
  | .ok j => decode j dst

/-- The method `Client.Do`; `v = none` is the nil destination. -/
def Client.Do {V : Type} (c : Client) (req : Request) (v : Option V)
    (decode : JSON → V → V × Option StdError) : DoResult V :=
  match c.client req with
  | .inr err => { v := v, resp := none, err := some err, sent := [req] }
  | .inl res =>
    match CheckResponse res with
    | some err => { v := v, resp := some res, err := some err, sent := [req] }
    | none =>
      match v with
      | none => { v := none, resp := some res, err := none, sent := [req] }
      | some dst =>
        let r := decodeBody res.Body dst decode
        { v := some r.1, resp := some res, err := r.2.map GoError.std, sent := [req] }

/-! ## email.go: Email, Send, SendBatch -/

/-- The struct `Header` of email.go. -/
structure Header where
  Name : Option Ptr := none
  Value : Option Ptr := none
  deriving DecidableEq, Repr

/-- The struct `Email`. A `*bool` is represented by the value it points to. -/
structure Email where
  From : Option Ptr := none
  To : Option Ptr := none
  Cc : Option Ptr := none
  Bcc : Option Ptr := none
  Subject : Option Ptr := none
  Tag : Option Ptr := none
  HTMLBody : Option Ptr := none
  TextBody : Option Ptr := none
  ReplyTo : Option Ptr := none
  Headers : List Header := []
  TrackOpens : Option Bool := none
  Attachments : List Attachment := []
  deriving DecidableEq, Repr

def marshalHeader (h : Heap) (hd : Header) : JSON :=
  .obj (stringPtrField h "Name" hd.Name ++ stringPtrField h "Value" hd.Value)

/-- The elements of `Attachments`, each written by its `MarshalJSON` method (the elements
of a slice are addressable, so the pointer method is used), in order. -/
def marshalAttachments : Heap → List Attachment → Outcome (Heap × List JSON × Option StdError)
  | h, [] => .ret (h, [], none)
  | h, a :: rest =>
    match a.MarshalJSON h with
    | .panic => .panic
    | .ret (h1, _, some e) => .ret (h1, [], some e)
    | .ret (h1, j, none) =>
      match marshalAttachments h1 rest with
      | .panic => .panic
      | .ret (h2, js, e) => .ret (h2, j :: js, e)

/-- A slice member with `omitempty`: omitted when the slice is empty. -/
def sliceField (name : String) (items : List JSON) : List (GoString × JSON) :=
  if items.isEmpty then [] else [(asc name, .arr items)]

/-- The JSON encoding of an `Email` struct: the fields in declaration order, each omitted
when empty. -/
def marshalEmailStruct (h : Heap) (e : Email) : Outcome (Heap × JSON × Option StdError) :=
  let front := stringPtrField h "From" e.From ++ stringPtrField h "To" e.To
    ++ stringPtrField h "Cc" e.Cc ++ stringPtrField h "Bcc" e.Bcc
    ++ stringPtrField h "Subject" e.Subject ++ stringPtrField h "Tag" e.Tag
    ++ stringPtrField h "HtmlBody" e.HTMLBody ++ stringPtrField h "TextBody" e.TextBody
    ++ stringPtrField h "ReplyTo" e.ReplyTo
    ++ sliceField "Headers" (e.Headers.map (marshalHeader h))
    ++ (match e.TrackOpens with
        | none => []
        | some b => [(asc "TrackOpens", .bool b)])
  match marshalAttachments h e.Attachments with
  | .panic => .panic
  | .ret (h1, _, some err) => .ret (h1, .null, some err)
  | .ret (h1, js, none) => .ret (h1, .obj (front ++ sliceField "Attachments" js), none)

/-- The JSON encoding of an `*Email`: a nil pointer is written as `null`. -/
def marshalEmail (h : Heap) (e : Option Email) : Outcome (Heap × JSON × Option StdError) :=
  match e with
  | none => .ret (h, .null, none)
  | some em => marshalEmailStruct h em

def marshalEmailList : Heap → List Email → Outcome (Heap × List JSON × Option StdError)
  | h, [] => .ret (h, [], none)
  | h, e :: rest =>
    match marshalEmailStruct h e with
    | .panic => .panic
    | .ret (h1, _, some err) => .ret (h1, [], some err)
    | .ret (h1, j, none) =>
      match marshalEmailList h1 rest with
      | .panic => .panic
      | .ret (h2, js, err) => .ret (h2, j :: js, err)

/-- The JSON encoding of an `[]Email`: a nil slice is written as `null`, any other slice
as an array. -/
def marshalEmails (h : Heap) (es : Option (List Email)) :
    Outcome (Heap × JSON × Option StdError) :=
  match es with
  | none => .ret (h, .null, none)
  | some l =>
    match marshalEmailList h l with
    | .panic => .panic
    | .ret (h1, js, err) => .ret (h1, .arr js, err)

/-- The struct `EmailResult`. -/
structure EmailResult where
  To : GoString := []
  SubmittedAt : Option GoTime := none
  MessageID : GoString := []
  deriving DecidableEq, Repr

/-- Decoding a JSON value into the `*time.Time` field: `null` sets the pointer to nil; any
other value allocates a `Time` and goes to `(*Time).UnmarshalJSON`, whose error (for a
value that is no string, or a string that is no RFC 3339 time) ends the decoding. The
flag tells that the decoding ends. -/
def decodeTimePtr (L : Stdlib) (v : JSON) : Option GoTime × Option StdError × Bool :=
  match v with
  | .null => (none, none, false)
  | .str s =>
    match L.parseTime s with
    | some t => (some t, none, false)
    | none => (some .zero, some .timeParse, true)
  | _ => (some .zero, some .timeParse, true)

/-- One key of an object decoded into an `EmailResult`: the record, the error of this
member, and whether the error ends the decoding. -/
def decodeEmailResultField (L : Stdlib) (r : EmailResult) (kv : GoString × JSON) :
    EmailResult × Option StdError × Bool :=
  if keyMatches kv.1 "To" then
    let d := decodeStringField r.To kv.2
    ({ r with To := d.1 }, d.2, false)
  else if keyMatches kv.1 "SubmittedAt" then
    let d := decodeTimePtr L kv.2
    ({ r with SubmittedAt := d.1 }, d.2.1, d.2.2)
  else if keyMatches kv.1 "MessageID" then
    let d := decodeStringField r.MessageID kv.2
    ({ r with MessageID := d.1 }, d.2, false)
  else (r, none, false)

/-- The members of an object, decoded in order: a type error is saved (the first one is
kept) and the decoding goes on; an error of an `UnmarshalJSON` method ends it and is the
error returned. -/
def decodeEmailResultFields (L : Stdlib) :
    List (GoString × JSON) → EmailResult → Option StdError → EmailResult × Option StdError × Bool
  | [], r, saved => (r, saved, false)
  | kv :: rest, r, saved =>
    let d := decodeEmailResultField L r kv
    if d.2.2 then (d.1, d.2.1, true)
    else decodeEmailResultFields L rest d.1 (saveError saved d.2.1)

/-- Decoding a JSON value into an `EmailResult`, with the saved error so far. -/
def decodeEmailResultValue (L : Stdlib) (j : JSON) (r : EmailResult) (saved : Option StdError) :
    EmailResult × Option StdError × Bool :=
  match j with
  | .null => (r, saved, false)
  | .obj fields => decodeEmailResultFields L fields r saved
  | _ => (r, saveError saved (some .jsonType), false)

/-- The decoding of a response into `result`, of type `*EmailResult`. -/
def decodeEmailResult (L : Stdlib) (j : JSON) (r : EmailResult) : EmailResult × Option StdError :=
  let d := decodeEmailResultValue L j r none
  (d.1, d.2.1)

/-- The elements of an array decoded into a slice that starts empty: each element into a
new zero `EmailResult`, appended in order. -/
def decodeEmailResultItems (L : Stdlib) :
    List JSON → Option StdError → List EmailResult × Option StdError × Bool
  | [], saved => ([], saved, false)
  | j :: rest, saved =>
    let d := decodeEmailResultValue L j {} saved
    if d.2.2 then ([d.1], d.2.1, true)
    else
      let ds := decodeEmailResultItems L rest d.2.1
      (d.1 :: ds.1, ds.2.1, ds.2.2)

/-- The decoding of a response into `results`, of type `*[]EmailResult`, which points to a
nil slice: `null` leaves the nil slice (`none`), an array gives one element per item, any
other value is a type error. -/
def decodeEmailResults (L : Stdlib) (j : JSON) (cur : Option (List EmailResult)) :
    Option (List EmailResult) × Option StdError :=
  match j with
  | .null => (none, none)
  | .arr items =>
    let d := decodeEmailResultItems L items none
    (some d.1, d.2.1)
  | _ => (cur, some .jsonType)

/-- The three `req.Header.Set` calls of `Send` and `SendBatch`. -/
def setEmailHeaders (c : Client) (req : Request) : Request :=
  let h1 := HTTPHeader.set req.Header headerContentType contentType
  let h2 := HTTPHeader.set h1 headerAccept acceptType
  let h3 := HTTPHeader.set h2 headerServerToken c.ServerToken
  { req with Header := h3 }

/-- What `Send` returns, with the heap after the call and the requests handed to the
transport. -/
structure SendResult where
  heap : Heap
  result : Option EmailResult
  resp : Option Response
  err : Option GoError
  sent : List Request

/-- The method `EmailService.Send`; the service holds the client `c`. -/
def EmailService.Send (L : Stdlib) (c : Client) (h : Heap) (email : Option Email) :
    Outcome SendResult :=
  match c.NewRequest L h (asc "POST") (asc "email") (some email) marshalEmail with
  | .panic => .panic
  | .ret { heap := h1, req := _, err := some err } =>
    .ret { heap := h1, result := none, resp := none, err := some err, sent := [] }
  | .ret { heap := _, req := none, err := none } => .panic
  | .ret { heap := h1, req := some req0, err := none } =>
    let req := setEmailHeaders c req0
    let result : EmailResult := {}
    let d := c.Do req (some result) (decodeEmailResult L)
    match d.err with
    | some err => .ret { heap := h1, result := none, resp := d.resp, err := some err, sent := d.sent }
    | none => .ret { heap := h1, result := d.v, resp := d.resp, err := none, sent := d.sent }

/-- What `SendBatch` returns; `results = none` is the nil slice. -/
structure SendBatchResult where
  heap : Heap
  results : Option (List EmailResult)
  resp : Option Response
  err : Option GoError
  sent : List Request

/-- The method `EmailService.SendBatch`; `emails = none` is the nil slice. -/
def EmailService.SendBatch (L : Stdlib) (c : Client) (h : Heap) (emails : Option (List Email)) :
    Outcome SendBatchResult :=
  match c.NewRequest L h (asc "POST") (asc "email/batch") (some emails) marshalEmails with
  | .panic => .panic
  | .ret { heap := h1, req := _, err := some err } =>
    .ret { heap := h1, results := none, resp := none, err := some err, sent := [] }
  | .ret { heap := _, req := none, err := none } => .panic
  | .ret { heap := h1, req := some req0, err := none } =>
    let req := setEmailHeaders c req0
    let results : Option (List EmailResult) := none
    let d := c.Do req (some results) (decodeEmailResults L)
    match d.err with
    | some err =>
      .ret { heap := h1, results := none, resp := d.resp, err := some err, sent := d.sent }
    | none =>
      .ret { heap := h1, results := d.v.join, resp := d.resp, err := none, sent := d.sent }

/-! ## Auxiliary definitions for the statements -/

/-- The function `utf8.Valid`, by the same walk as `coerceFrom`. -/
def validFrom : Nat → GoString → Bool
  | skip, [] => skip == 0
  | skip + 1, _ :: rest => validFrom skip rest
  | 0, b :: rest =>
    match runeLen (b :: rest) with
    | 0 => false
    | n + 1 => validFrom n rest

def validUTF8 (s : GoString) : Bool := validFrom 0 s

/-- An optional string member of a JSON object, as the specification writes it: absent
when the value is absent. -/
def optMember (name : String) (v : Option GoString) : List (GoString × JSON) :=
  match v with
  | none => []
  | some s => [(asc name, .str s)]

/-- Marshalling an attachment and unmarshalling the JSON produced into a new
`Attachment`; the strings of the result, or `none` when a step panics or fails. -/
def roundTripView (h : Heap) (a : Attachment) : Option AttachmentView :=
  match a.MarshalJSON h with
  | .ret (h1, j, none) =>
    match Attachment.UnmarshalJSON h1 {} (some j) with
    | .ret (h2, a2, none) => some (a2.view h2)
    | _ => none
  | _ => none

/-- Marshalling the same attachment twice: the members of the first and of the second
JSON object. -/
def marshalTwice (h : Heap) (a : Attachment) :
    Option (List (GoString × JSON) × List (GoString × JSON)) :=
  match a.MarshalJSON h with
  | .ret (h1, .obj f1, _) =>
    match a.MarshalJSON h1 with
    | .ret (_, .obj f2, _) => some (f1, f2)
    | _ => none
  | _ => none

/-- The string member `name` of a list of object members. -/
def memberStr (fields : List (GoString × JSON)) (name : String) : Option GoString :=
  match fields.find? (fun kv => kv.1 == asc name) with
  | some (_, .str s) => some s
  | _ => none

/-- A heap holding the given strings at addresses 0, 1, 2, ... -/
def heapOf (ss : List GoString) : Heap :=
  { next := ss.length, mem := fun p => ss.getD p [] }

/-- The attachment of email_test.go: Name, Content, ContentType and ContentID, each in a
string of its own. -/
def testHeap : Heap := heapOf [asc "Name", asc "Content", asc "ContentType", asc "ContentID"]

def testAttachment : Attachment :=
  { Name := some 0, Content := some 1, ContentType := some 2, ContentID := some 3 }

/-- An attachment whose name is the single byte 0xFF, which is not valid UTF-8. -/
def rawNameHeap : Heap := heapOf [[0xFF], asc "Content"]

def rawNameAttachment : Attachment := { Name := some 0, Content := some 1 }

/-- A stand-in for the standard library, enough to run the model on examples: every
string but ":" parses as a URL made of a path, resolution appends the path, and no string
is a time. -/
def sampleStdlib : Stdlib :=
  { urlParse := fun s => if s = asc ":" then none else some { Path := s }
    resolveReference := fun base rel => { base with Path := base.Path ++ rel.Path }
    urlString := fun u => u.Scheme ++ asc "://" ++ u.Host ++ u.Path
    requestURL := fun s => some { Path := s }
    parseTime := fun _ => none }

/-- The base URL set by `NewClient`, `https://api.postmarkapp.com/`. -/
def defaultBaseURL : URL :=
  { Scheme := asc "https", Host := asc "api.postmarkapp.com", Path := asc "/" }

/-- A body holding one well-formed JSON text. -/
def jsonBody (j : JSON) : Body := { readErr := none, text := some j, first := .ok j }

/-- A client whose transport answers every request with the given response. -/
def clientAnswering (res : Response) : Client :=
  { client := fun _ => .inl res, BaseURL := some defaultBaseURL,
    ServerToken := asc "super-secret-server-token", AccountToken := [] }

/-- A client whose transport fails with the given error. -/
def clientFailing (e : GoError) : Client :=
  { client := fun _ => .inr e, BaseURL := some defaultBaseURL,
    ServerToken := asc "super-secret-server-token", AccountToken := [] }

/-- The answer of the mock of email_test.go for a valid email. -/
def okResponse : Response :=
  { StatusCode := 200,
    Body := jsonBody (.obj [(asc "To", .str (asc "receiver@example.com")),
      (asc "MessageID", .str (asc "MessageID"))]) }

/-- The answer of the mock of email_test.go for an API error. -/
def apiErrorResponse : Response :=
  { StatusCode := 422,
    Body := jsonBody (.obj [(asc "ErrorCode", .num 0), (asc "Message", .str (asc "Message"))]) }

/-- The answer of the mock of email_test.go for a batch: two results. -/
def batchResponse : Response :=
  { StatusCode := 200,
    Body := jsonBody (.arr [
      .obj [(asc "To", .str (asc "receiver1@example.com")),
        (asc "MessageID", .str (asc "MessageID1"))],
      .obj [(asc "To", .str (asc "receiver2@example.com")),
        (asc "MessageID", .str (asc "MessageID2"))]]) }

/-- A response with status 400 whose body is the JSON text `{"Response": null}`. -/
def nullResponseMember : Response :=
  { StatusCode := 400, Body := jsonBody (.obj [(asc "Response", .null)]) }

def ResponseRef.isNil : ResponseRef → Bool
  | .nil => true
  | _ => false

/-- The `*ErrorResponse` inside an error, if it is one. -/
def GoError.asErrorResponse : Option GoError → Option ErrorResponse
  | some (.api e) => some e
  | _ => none

/-- An email with one attachment that has a name and no content. -/
def emailWithoutContent : Email := { Attachments := [{ Name := some 0 }] }

def Outcome.isPanic {α : Type} : Outcome α → Bool
  | .panic => true
  | .ret _ => false

/-- The requests handed to the transport during a call of `Send`. -/
def sentBySend : Outcome SendResult → List Request
  | .ret s => s.sent
  | .panic => []

/-- The requests handed to the transport during a call of `SendBatch`. -/
def sentBySendBatch : Outcome SendBatchResult → List Request
  | .ret s => s.sent
  | .panic => []

/-- The three headers every email request must carry. -/
def hasEmailHeaders (token : GoString) (req : Request) : Prop :=
  req.Header.get (asc "Content-Type") = asc "application/json"
  ∧ req.Header.get (asc "Accept") = asc "application/json"
  ∧ req.Header.get (asc "X-Postmark-Server-Token") = token

/-- The number of results and whether the error is nil, for a call of `SendBatch` that
returns. -/
def batchSummary : Outcome SendBatchResult → Option (Option Nat × Bool)
  | .ret s => some (s.results.map List.length, s.err.isNone)
  | .panic => none

/-- Whether `NewRequest` returned a request, and whether it returned an error. -/
def requestSummary : Outcome NewRequestResult → Option (Bool × Bool)
  | .ret r => some (r.req.isSome, r.err.isSome)
  | .panic => none

/-- The encoding of the test type `struct{ A int }` of postmark_test.go. -/
def marshalTestStruct (h : Heap) (a : Int) : Outcome (Heap × JSON × Option StdError) :=
  .ret (h, .obj [(asc "A", .num a)], none)

/-- The JSON object of an attachment given by its strings: a Content member, and the
other three members when present. -/
def attachmentObject (name : Option GoString) (content : GoString)
    (ctype cid : Option GoString) : JSON :=
  .obj (optMember "Name" name ++ optMember "Content" (some content)
    ++ optMember "ContentType" ctype ++ optMember "ContentID" cid)

/-- A JSON object of an attachment with no Content member. -/
def attachmentObjectWithoutContent (name ctype cid : Option GoString) : JSON :=
  .obj (optMember "Name" name ++ optMember "ContentType" ctype ++ optMember "ContentID" cid)

/-- Unmarshalling a JSON value into a new `Attachment`: the strings of the attachment and
whether an error is returned, or `none` when the call panics. -/
def unmarshalView (h : Heap) (j : JSON) : Option (AttachmentView × Bool) :=
  match Attachment.UnmarshalJSON h {} (some j) with
  | .ret (h1, a, err) => some (a.view h1, err.isSome)
  | .panic => none

/-- The text `QUJD!`: the base64 of "ABC" followed by a byte outside the alphabet. -/
def corruptBase64 : GoString := asc "QUJD!"

/-- Whether an object key selects one of the four fields of `Attachment`. -/
def isAttachmentKey (k : GoString) : Bool :=
  keyMatches k "Name" || keyMatches k "Content" || keyMatches k "ContentType"
    || keyMatches k "ContentID"

/-- The members of a JSON attachment object: every member whose key selects a field of
`Attachment` is a string; the other members are arbitrary. -/
def stringMembers (fields : List (GoString × JSON)) : Prop :=
  ∀ kv ∈ fields, isAttachmentKey kv.1 = true → ∃ s, kv.2 = .str s

/-- The string of the last member whose key selects the field `name`, if there is such a
member and it is a string. -/
def lastMember (fields : List (GoString × JSON)) (name : String) : Option GoString :=
  match fields.reverse.find? (fun kv => keyMatches kv.1 name) with
  | some (_, .str s) => some s
  | _ => none

/-- The addresses an attachment holds. -/
def Attachment.ptrs (t : Attachment) : List Ptr :=
  t.Name.toList ++ t.Content.toList ++ t.ContentType.toList ++ t.ContentID.toList

/-- The fields of the attachment point to different strings, all of them allocated. -/
def wellSeparated (h : Heap) (t : Attachment) : Prop :=
  t.ptrs.Nodup ∧ ∀ p ∈ t.ptrs, p < h.next

/-- The members of an attachment object written in another order, with a lower-case
Content key and a member that belongs to no field. -/
def unorderedMembers : List (GoString × JSON) :=
  [(asc "content", .str corruptBase64), (asc "Name", .str (asc "Name")),
   (asc "Extra", .num 1)]

/-! ## Facts about the base64 codec -/

set_option maxRecDepth 100000 in
theorem decodeMap_encChar_fin : ∀ i : Fin 64, decodeMap (encChar i.val) = some i.val := by
  decide

theorem decodeMap_encChar (i : Nat) (h : i < 64) : decodeMap (encChar i) = some i :=
  decodeMap_encChar_fin ⟨i, h⟩

theorem decodeMap_padChar : decodeMap padChar = none := by decide

theorem isNewline_padChar : isNewline padChar = false := by decide

theorem scanQuantum_full (s0 s1 s2 s3 : Nat) (h0 : s0 < 64) (h1 : s1 < 64) (h2 : s2 < 64)
    (h3 : s3 < 64) (rest : GoString) :
    scanQuantum [] (encChar s0 :: encChar s1 :: encChar s2 :: encChar s3 :: rest)
      = .full [s0, s1, s2, s3] rest := by
  simp [scanQuantum, decodeMap_encChar, h0, h1, h2, h3]

theorem scanQuantum_pad1 (s0 s1 s2 : Nat) (h0 : s0 < 64) (h1 : s1 < 64) (h2 : s2 < 64) :
    scanQuantum [] [encChar s0, encChar s1, encChar s2, padChar]
      = .padded [s0, s1, s2] false := by
  simp [scanQuantum, decodeMap_encChar, h0, h1, h2, decodeMap_padChar, isNewline_padChar,
    skipNewlines]

theorem scanQuantum_pad2 (s0 s1 : Nat) (h0 : s0 < 64) (h1 : s1 < 64) :
    scanQuantum [] [encChar s0, encChar s1, padChar, padChar] = .padded [s0, s1] false := by
  simp [scanQuantum, decodeMap_encChar, h0, h1, decodeMap_padChar, isNewline_padChar,
    skipNewlines]

theorem sextet_lt (v k : Nat) : v / k % 64 < 64 := Nat.mod_lt _ (by decide)

theorem quantumBytes_group3 (b0 b1 b2 : Byte) :
    quantumBytes [(b0.val * 65536 + b1.val * 256 + b2.val) / 262144 % 64,
      (b0.val * 65536 + b1.val * 256 + b2.val) / 4096 % 64,
      (b0.val * 65536 + b1.val * 256 + b2.val) / 64 % 64,
      (b0.val * 65536 + b1.val * 256 + b2.val) % 64] = [b0, b1, b2] := by
  have := b0.isLt; have := b1.isLt; have := b2.isLt
  simp only [quantumBytes, List.getD_cons_zero, List.getD_cons_succ, List.length_cons,
    List.length_nil, List.map, List.take]
  refine congrArg₂ _ ?_ (congrArg₂ _ ?_ (congrArg₂ _ ?_ rfl)) <;> apply Fin.ext <;>
    simp [Fin.ofNat] <;> omega

theorem quantumBytes_group2 (b0 b1 : Byte) :
    quantumBytes [(b0.val * 65536 + b1.val * 256) / 262144 % 64,
      (b0.val * 65536 + b1.val * 256) / 4096 % 64,
      (b0.val * 65536 + b1.val * 256) / 64 % 64] = [b0, b1] := by
  have := b0.isLt; have := b1.isLt
  simp only [quantumBytes, List.getD_cons_zero, List.getD_cons_succ, List.length_cons,
    List.length_nil, List.map, List.take, List.getD_nil]
  refine congrArg₂ _ ?_ (congrArg₂ _ ?_ rfl) <;> apply Fin.ext <;>
    simp [Fin.ofNat] <;> omega

theorem quantumBytes_group1 (b0 : Byte) :
    quantumBytes [b0.val * 65536 / 262144 % 64, b0.val * 65536 / 4096 % 64] = [b0] := by
  have := b0.isLt
  simp only [quantumBytes, List.getD_cons_zero, List.getD_cons_succ, List.length_cons,
    List.length_nil, List.map, List.take, List.getD_nil]
  refine congrArg₂ _ ?_ rfl
  apply Fin.ext
  simp [Fin.ofNat]
  omega

theorem decodeLoop_encodeBytes (bs : GoString) :
    ∀ fuel, (encodeBytes bs).length ≤ fuel → decodeLoop fuel (encodeBytes bs) = (bs, none) := by
  induction bs using encodeBytes.induct with
  | case1 => intro fuel _; cases fuel <;> simp [encodeBytes, decodeLoop, scanQuantum]
  | case2 b0 =>
    intro fuel h
    cases fuel with
    | zero => simp [encodeBytes] at h
    | succ n =>
      simp [encodeBytes, decodeLoop, encodeGroup, scanQuantum_pad2, sextet_lt,
        quantumBytes_group1]
  | case3 b0 b1 =>
    intro fuel h
    cases fuel with
    | zero => simp [encodeBytes] at h
    | succ n =>
      simp [encodeBytes, decodeLoop, encodeGroup, scanQuantum_pad1, sextet_lt,
        quantumBytes_group2]
  | case4 b0 b1 b2 rest ih =>
    intro fuel h
    cases fuel with
    | zero => simp [encodeBytes] at h
    | succ n =>
      have hn : (encodeBytes rest).length ≤ n := by
        simp [encodeBytes] at h; omega
      have h3 : (b0.val * 65536 + b1.val * 256 + b2.val) % 64 < 64 := Nat.mod_lt _ (by decide)
      simp [encodeBytes, decodeLoop, encodeGroup, scanQuantum_full, sextet_lt, h3,
        quantumBytes_group3, ih n hn]

theorem decodeBase64_encodeBase64 (s : GoString) :
    decodeBase64 (encodeBase64 s) = (s, none) :=
  decodeLoop_encodeBytes s _ (Nat.le_refl _)

/-! ## Facts about the JSON model -/

theorem coerceFrom_of_valid (s : GoString) :
    ∀ skip, validFrom skip s = true → coerceFrom skip s = s := by
  induction s with
  | nil => intro skip _; cases skip <;> rfl
  | cons b rest ih =>
    intro skip hv
    cases skip with
    | succ k => simp only [validFrom] at hv; simp [coerceFrom, ih k hv]
    | zero =>
      simp only [validFrom] at hv
      simp only [coerceFrom]
      split at hv
      · exact absurd hv (by simp)
      · rename_i n hn
        simp [ih n hv]

theorem toValidUTF8_of_valid (s : GoString) (h : validUTF8 s = true) : toValidUTF8 s = s :=
  coerceFrom_of_valid s 0 h

set_option maxRecDepth 100000 in
theorem encChar_ascii_fin : ∀ i : Fin 64, (encChar i.val).val < 128 := by decide

theorem encChar_ascii (i : Nat) : (encChar i).val < 128 := by
  by_cases h : i < 64
  · exact encChar_ascii_fin ⟨i, h⟩
  · have : encChar i = 0 := by
      unfold encChar
      apply List.getD_eq_default
      have : encodeStd.length = 64 := by decide
      omega
    simp [this]

/-- A string of ASCII bytes is valid UTF-8. -/
theorem validFrom_ascii (s : GoString) (h : ∀ b ∈ s, b.val < 128) : validFrom 0 s = true := by
  induction s with
  | nil => rfl
  | cons b rest ih =>
    have hb : b.val < 128 := h b (List.mem_cons_self _ _)
    have hl : runeLen (b :: rest) = 1 := by
      simp [runeLen, utf8Lead, hb]
    simp only [validFrom, hl]
    exact ih (fun c hc => h c (List.mem_cons_of_mem _ hc))

theorem encodeBytes_ascii (s : GoString) : ∀ b ∈ encodeBytes s, b.val < 128 := by
  induction s using encodeBytes.induct with
  | case1 => simp [encodeBytes]
  | case2 b0 =>
    intro b hb
    simp only [encodeBytes, List.mem_cons, List.mem_singleton, List.not_mem_nil, or_false] at hb
    rcases hb with h | h | h | h <;> subst h <;> first | exact encChar_ascii _ | decide
  | case3 b0 b1 =>
    intro b hb
    simp only [encodeBytes, List.mem_cons, List.mem_singleton, List.not_mem_nil, or_false] at hb
    rcases hb with h | h | h | h <;> subst h <;> first | exact encChar_ascii _ | decide
  | case4 b0 b1 b2 rest ih =>
    intro b hb
    simp only [encodeBytes, List.mem_cons] at hb
    rcases hb with h | h | h | h | h
    · subst h; exact encChar_ascii _
    · subst h; exact encChar_ascii _
    · subst h; exact encChar_ascii _
    · subst h; exact encChar_ascii _
    · exact ih b h

theorem toValidUTF8_encodeBase64 (s : GoString) :
    toValidUTF8 (encodeBase64 s) = encodeBase64 s :=
  toValidUTF8_of_valid _ (validFrom_ascii _ (encodeBytes_ascii s))

theorem km_name : keyMatches (asc "Name") "Name" = true := by decide
theorem km_content_name : keyMatches (asc "Content") "Name" = false := by decide
theorem km_content : keyMatches (asc "Content") "Content" = true := by decide
theorem km_type_name : keyMatches (asc "ContentType") "Name" = false := by decide
theorem km_type_content : keyMatches (asc "ContentType") "Content" = false := by decide
theorem km_type : keyMatches (asc "ContentType") "ContentType" = true := by decide
theorem km_id_name : keyMatches (asc "ContentID") "Name" = false := by decide
theorem km_id_content : keyMatches (asc "ContentID") "Content" = false := by decide
theorem km_id_type : keyMatches (asc "ContentID") "ContentType" = false := by decide
theorem km_id : keyMatches (asc "ContentID") "ContentID" = true := by decide

/-- The JSON object that `MarshalJSON` returns, and the heap it leaves. -/
theorem MarshalJSON_eq (h : Heap) (a : Attachment) (p : Ptr) (hc : a.Content = some p) :
    a.MarshalJSON h = .ret (h.store p (encodeBase64 (h.load p)),
      marshalAttachmentStruct (h.store p (encodeBase64 (h.load p))) a, none) := by
  simp [Attachment.MarshalJSON, hc]

theorem load_store_same (h : Heap) (p : Ptr) (s : GoString) : (h.store p s).load p = s := by
  simp [Heap.load, Heap.store]

theorem load_store_other (h : Heap) (p q : Ptr) (s : GoString) (hne : q ≠ p) :
    (h.store p s).load q = h.load q := by
  simp [Heap.load, Heap.store, hne]

/-- C3 (amended): for an attachment with Content present and text C, whose Content
pointer is not shared with Name, ContentType or ContentID, `MarshalJSON` returns no error
and the JSON object whose Content is the standard base64 encoding of C and whose Name,
ContentType and ContentID are the in-memory values coerced to valid UTF-8 (omitted when
absent); a value that is valid UTF-8 is written unchanged. -/
theorem marshal_json_object (h : Heap) (a : Attachment) (p : Ptr)
    (hc : a.Content = some p) (hn : a.Name ≠ some p) (ht : a.ContentType ≠ some p)
    (hi : a.ContentID ≠ some p) :
    (∃ h1, a.MarshalJSON h = .ret (h1, .obj (
        optMember "Name" (a.Name.map (fun n => toValidUTF8 (h.load n)))
        ++ optMember "Content" (some (encodeBase64 (h.load p)))
        ++ optMember "ContentType" (a.ContentType.map (fun n => toValidUTF8 (h.load n)))
        ++ optMember "ContentID" (a.ContentID.map (fun n => toValidUTF8 (h.load n)))), none))
    ∧ ∀ s, validUTF8 s = true → toValidUTF8 s = s := by
  refine ⟨⟨h.store p (encodeBase64 (h.load p)), ?_⟩, toValidUTF8_of_valid⟩
  rw [MarshalJSON_eq h a p hc]
  obtain ⟨n, c, t, i⟩ := a
  simp only at hc hn ht hi
  subst hc
  have e : ∀ q : Option Ptr, q ≠ some p → ∀ name,
      stringPtrField (h.store p (encodeBase64 (h.load p))) name q
        = optMember name (q.map (fun n => toValidUTF8 (h.load n))) := by
    intro q hq name
    cases q with
    | none => rfl
    | some q =>
      have : q ≠ p := fun hh => hq (by rw [hh])
      simp [stringPtrField, optMember, load_store_other _ _ _ _ this]
  simp [marshalAttachmentStruct, e n hn, e t ht, e i hi]
  simp [stringPtrField, optMember, load_store_same, toValidUTF8_encodeBase64]

/-- Unmarshalling the object written for `a` out of the heap `h1`: every field comes
back as the string that was written. -/
theorem unmarshal_marshalled (h1 : Heap) (a recv : Attachment) (p : Ptr)
    (hc : a.Content = some p) :
    ∃ h2 a2, Attachment.UnmarshalJSON h1 recv (some (marshalAttachmentStruct h1 a))
        = .ret (h2, a2, none)
      ∧ (a2.view h2).Content = some (decodeBase64 (toValidUTF8 (h1.load p))).1
      ∧ (a2.view h2).Name = a.Name.map (fun n => toValidUTF8 (h1.load n))
      ∧ (a2.view h2).ContentType = a.ContentType.map (fun n => toValidUTF8 (h1.load n))
      ∧ (a2.view h2).ContentID = a.ContentID.map (fun n => toValidUTF8 (h1.load n)) := by
  obtain ⟨n, c, t, i⟩ := a
  simp only at hc
  subst hc
  have d1 : ∀ k : Nat, ¬ k = k + 1 + 1 := by omega
  have d2 : ∀ k : Nat, ¬ k + 1 + 1 = k := by omega
  have d3 : ∀ k : Nat, ¬ k = k + 1 + 1 + 1 := by omega
  cases n <;> cases t <;> cases i <;>
    simp [Attachment.UnmarshalJSON, unmarshalAttachmentStruct, marshalAttachmentStruct,
      stringPtrField, decodeAttachmentField, km_name, km_content_name, km_content,
      km_type_name, km_type_content, km_type, km_id_name, km_id_content, km_id_type, km_id,
      decodeStringPtr, saveError, Heap.alloc, Heap.store, Heap.load, Attachment.view] <;>
    refine ⟨_, _, ⟨rfl, rfl⟩, ?_⟩ <;> simp [d1, d2, d3]

/-! ## Attachment: the claims -/

/-- C1 (amended): for an attachment whose Content is present with text C, `MarshalJSON`
followed by `UnmarshalJSON` of the JSON produced succeeds and gives an attachment whose
Content is C; each of Name, ContentType and ContentID that does not share the Content
pointer comes back as the original coerced to valid UTF-8 (absent when absent), which is
the original itself when that is valid UTF-8. -/
theorem marshal_unmarshal_round_trip (h : Heap) (a recv : Attachment) (p : Ptr)
    (hc : a.Content = some p) :
    (∃ h1 j h2 a2, a.MarshalJSON h = .ret (h1, j, none)
      ∧ Attachment.UnmarshalJSON h1 recv (some j) = .ret (h2, a2, none)
      ∧ (a2.view h2).Content = some (h.load p)
      ∧ (a.Name ≠ some p → (a2.view h2).Name = a.Name.map (fun n => toValidUTF8 (h.load n)))
      ∧ (a.ContentType ≠ some p →
          (a2.view h2).ContentType = a.ContentType.map (fun n => toValidUTF8 (h.load n)))
      ∧ (a.ContentID ≠ some p →
          (a2.view h2).ContentID = a.ContentID.map (fun n => toValidUTF8 (h.load n))))
    ∧ ∀ s, validUTF8 s = true → toValidUTF8 s = s := by
  refine ⟨?_, toValidUTF8_of_valid⟩
  obtain ⟨h2, a2, hu, hcont, hname, htype, hid⟩ :=
    unmarshal_marshalled (h.store p (encodeBase64 (h.load p))) a recv p hc
  refine ⟨_, _, h2, a2, MarshalJSON_eq h a p hc, hu, ?_, ?_, ?_, ?_⟩
  · rw [hcont, load_store_same, toValidUTF8_encodeBase64, decodeBase64_encodeBase64]
  · intro hne
    rw [hname]
    cases hq : a.Name with
    | none => rfl
    | some q =>
      have : q ≠ p := fun e => hne (by rw [hq, e])
      simp [load_store_other _ _ _ _ this]
  · intro hne
    rw [htype]
    cases hq : a.ContentType with
    | none => rfl
    | some q =>
      have : q ≠ p := fun e => hne (by rw [hq, e])
      simp [load_store_other _ _ _ _ this]
  · intro hne
    rw [hid]
    cases hq : a.ContentID with
    | none => rfl
    | some q =>
      have : q ≠ p := fun e => hne (by rw [hq, e])
      simp [load_store_other _ _ _ _ this]

/-- The round trip of C1 on the attachment of email_test.go. -/
theorem marshal_unmarshal_round_trip_witness :
    testAttachment.Content = some 1 ∧
    ((∃ h1 j h2 a2, testAttachment.MarshalJSON testHeap = .ret (h1, j, none)
      ∧ Attachment.UnmarshalJSON h1 {} (some j) = .ret (h2, a2, none)
      ∧ (a2.view h2).Content = some (testHeap.load 1)
      ∧ (testAttachment.Name ≠ some 1 →
          (a2.view h2).Name = testAttachment.Name.map (fun n => toValidUTF8 (testHeap.load n)))
      ∧ (testAttachment.ContentType ≠ some 1 →
          (a2.view h2).ContentType
            = testAttachment.ContentType.map (fun n => toValidUTF8 (testHeap.load n)))
      ∧ (testAttachment.ContentID ≠ some 1 →
          (a2.view h2).ContentID
            = testAttachment.ContentID.map (fun n => toValidUTF8 (testHeap.load n))))
    ∧ ∀ s, validUTF8 s = true → toValidUTF8 s = s) :=
  ⟨rfl, marshal_unmarshal_round_trip testHeap testAttachment {} 1 rfl⟩

set_option maxRecDepth 100000 in
/-- C1 as stated fails: an attachment named by the byte 0xFF comes back from the round
trip named U+FFFD, so its Name does not equal the original. -/
theorem round_trip_name_not_restored :
    (rawNameAttachment.view rawNameHeap).Name = some [0xFF]
    ∧ (roundTripView rawNameHeap rawNameAttachment).map (fun v => v.Name)
        = some (some replacementRune)
    ∧ (roundTripView rawNameHeap rawNameAttachment).map (fun v => v.Name)
        ≠ some ((rawNameAttachment.view rawNameHeap).Name) := by
  decide

set_option maxRecDepth 100000 in
/-- C2 at the attachment of email_test.go: after `MarshalJSON` the in-memory Content is the
base64 text, and a second call writes the base64 of the base64 text. -/
theorem marshal_overwrites_content :
    (testAttachment.view testHeap).Content = some (asc "Content")
    ∧ (match testAttachment.MarshalJSON testHeap with
        | .ret (h1, _, _) => (testAttachment.view h1).Content
        | .panic => none) = some (asc "Q29udGVudA==")
    ∧ (marshalTwice testHeap testAttachment).map
        (fun r => (memberStr r.1 "Content", memberStr r.2 "Content"))
      = some (some (asc "Q29udGVudA=="), some (asc "UTI5dWRHVnVkQT09")) := by
  decide

/-- The object of C3 on the attachment of email_test.go. -/
theorem marshal_json_object_witness :
    testAttachment.Content = some 1 ∧ testAttachment.Name ≠ some 1
    ∧ testAttachment.ContentType ≠ some 1 ∧ testAttachment.ContentID ≠ some 1
    ∧ ((∃ h1, testAttachment.MarshalJSON testHeap = .ret (h1, .obj (
        optMember "Name" (testAttachment.Name.map (fun n => toValidUTF8 (testHeap.load n)))
        ++ optMember "Content" (some (encodeBase64 (testHeap.load 1)))
        ++ optMember "ContentType"
            (testAttachment.ContentType.map (fun n => toValidUTF8 (testHeap.load n)))
        ++ optMember "ContentID"
            (testAttachment.ContentID.map (fun n => toValidUTF8 (testHeap.load n)))), none))
      ∧ ∀ s, validUTF8 s = true → toValidUTF8 s = s) :=
  ⟨rfl, by decide, by decide, by decide,
    marshal_json_object testHeap testAttachment 1 rfl (by decide) (by decide) (by decide)⟩

set_option maxRecDepth 100000 in
/-- C3 as stated fails: the Name 0xFF appears in the JSON object as U+FFFD, not with its
in-memory value. -/
theorem marshal_name_not_unchanged :
    (rawNameAttachment.view rawNameHeap).Name = some [0xFF]
    ∧ (match rawNameAttachment.MarshalJSON rawNameHeap with
        | .ret (_, .obj fields, none) => memberStr fields "Name"
        | _ => none) = some replacementRune := by
  decide

/-! ## postmark.go: the claims -/

/-- The two outcomes of `CheckResponse`, by the status code. -/
theorem CheckResponse_cases (r : Response) :
    (CheckResponse r = none ↔ (200 ≤ r.StatusCode ∧ r.StatusCode ≤ 299))
    ∧ (¬ (200 ≤ r.StatusCode ∧ r.StatusCode ≤ 299) → ∃ e, CheckResponse r = some (.api e)) := by
  by_cases hc : 200 ≤ r.StatusCode ∧ r.StatusCode ≤ 299
  · simp [CheckResponse, hc]
  · refine ⟨?_, fun _ => ?_⟩
    · simp only [CheckResponse, if_neg hc, iff_false, hc]
      cases r.Body.readErr <;> simp
    · simp only [CheckResponse, if_neg hc]
      cases r.Body.readErr
      · exact ⟨_, rfl⟩
      · exact ⟨_, rfl⟩

/-- C4: `CheckResponse` returns no error if and only if the status code c satisfies
200 <= c <= 299; for every other status code it returns a non-nil error that is an
`*ErrorResponse`. -/
theorem CheckResponse_nil_iff_2xx (r : Response) :
    (CheckResponse r = none ↔ (200 ≤ r.StatusCode ∧ r.StatusCode ≤ 299))
    ∧ (¬ (200 ≤ r.StatusCode ∧ r.StatusCode ≤ 299) → ∃ e, CheckResponse r = some (.api e)) :=
  CheckResponse_cases r

theorem km_code_response : keyMatches (asc "ErrorCode") "Response" = false := by decide
theorem km_code : keyMatches (asc "ErrorCode") "ErrorCode" = true := by decide
theorem km_message_response : keyMatches (asc "Message") "Response" = false := by decide
theorem km_message_code : keyMatches (asc "Message") "ErrorCode" = false := by decide
theorem km_message : keyMatches (asc "Message") "Message" = true := by decide

/-- The two kinds of body that C5 names: the object with an ErrorCode (a Go int) and a
Message gives them back with the response; a body that cannot be read or is not JSON
gives the zero values with the response. -/
theorem CheckResponse_named_bodies (r : Response)
    (hs : ¬ (200 ≤ r.StatusCode ∧ r.StatusCode ≤ 299)) :
    (∀ c m, -9223372036854775808 ≤ c → c ≤ 9223372036854775807 → r.Body.readErr = none →
      r.Body.text = some (.obj [(asc "ErrorCode", .num c), (asc "Message", .str m)]) →
      CheckResponse r = some (.api { Response := .ptr r, ErrorCode := c, Message := m }))
    ∧ ((r.Body.readErr ≠ none ∨ r.Body.text = none) →
      CheckResponse r = some (.api { Response := .ptr r, ErrorCode := 0, Message := [] })) := by
  constructor
  · intro c m h1 h2 hr ht
    simp [CheckResponse, hs, hr, ht, unmarshalErrorResponse, decodeErrorResponseField,
      km_code_response, km_code, km_message_response, km_message_code, km_message,
      decodeIntField, decodeStringField, h1, h2]
  · intro hb
    simp only [CheckResponse, if_neg hs]
    cases hr : r.Body.readErr with
    | some e => rfl
    | none =>
      rcases hb with hb | hb
      · exact absurd hr hb
      · simp [hb, unmarshalErrorResponse]

/-- C5 at a response with status 400 and body `{"Response": null}`: the error returned
is an `*ErrorResponse` whose Response is nil, not the response checked. -/
theorem CheckResponse_response_overwritten :
    (GoError.asErrorResponse (CheckResponse nullResponseMember)).map
      (fun e => (e.Response.isNil, e.ErrorCode, e.Message)) = some (true, 0, []) := by
  decide

/-- The outcomes of `Client.Do`, by the transport's answer. -/
theorem Do_cases {V : Type} (c : Client) (req : Request) (v : Option V)
    (decode : JSON → V → V × Option StdError) :
    ((c.Do req v decode).err ≠ none ↔
      ((∃ e, c.client req = .inr e)
        ∨ (∃ res, c.client req = .inl res ∧ ¬ (200 ≤ res.StatusCode ∧ res.StatusCode ≤ 299))
        ∨ (∃ res dst, c.client req = .inl res ∧ (200 ≤ res.StatusCode ∧ res.StatusCode ≤ 299)
            ∧ v = some dst ∧ (decodeBody res.Body dst decode).2 ≠ none)))
    ∧ (∀ e, c.client req = .inr e →
        (c.Do req v decode).resp = none ∧ (c.Do req v decode).err = some e)
    ∧ (∀ res, c.client req = .inl res → (c.Do req v decode).resp = some res)
    ∧ (∀ res, c.client req = .inl res → ¬ (200 ≤ res.StatusCode ∧ res.StatusCode ≤ 299) →
        (c.Do req v decode).v = v)
    ∧ (c.Do req v decode).sent = [req] := by
  cases ht : c.client req with
  | inr e => simp [Client.Do, ht]
  | inl res =>
    have h4 := CheckResponse_cases res
    by_cases hc : 200 ≤ res.StatusCode ∧ res.StatusCode ≤ 299
    · have hn : CheckResponse res = none := h4.1.2 hc
      cases v with
      | none => simp [Client.Do, ht, hn, hc]
      | some dst =>
        simp only [Client.Do, ht, hn]
        cases hd : (decodeBody res.Body dst decode).2 <;> simp [hc, hd]
    · obtain ⟨e, he⟩ := h4.2 hc
      have hc2 : 200 ≤ res.StatusCode → 299 < res.StatusCode := fun h => by
        by_contra hh
        exact hc ⟨h, not_lt.mp hh⟩
      simp [Client.Do, ht, he, hc]
      exact hc2

/-- C6: `Client.Do` returns a non-nil error exactly when the transport fails, or the
status is outside [200,299], or the status is inside, a destination is supplied and
decoding the body into it fails. When the transport fails the response is absent and the
error is the transport's; otherwise the response is the transport's response; when the
status is outside [200,299] the destination is left as it was. -/
theorem Do_error_cases {V : Type} (c : Client) (req : Request) (v : Option V)
    (decode : JSON → V → V × Option StdError) :
    ((c.Do req v decode).err ≠ none ↔
      ((∃ e, c.client req = .inr e)
        ∨ (∃ res, c.client req = .inl res ∧ ¬ (200 ≤ res.StatusCode ∧ res.StatusCode ≤ 299))
        ∨ (∃ res dst, c.client req = .inl res ∧ (200 ≤ res.StatusCode ∧ res.StatusCode ≤ 299)
            ∧ v = some dst ∧ (decodeBody res.Body dst decode).2 ≠ none)))
    ∧ (∀ e, c.client req = .inr e →
        (c.Do req v decode).resp = none ∧ (c.Do req v decode).err = some e)
    ∧ (∀ res, c.client req = .inl res → (c.Do req v decode).resp = some res)
    ∧ (∀ res, c.client req = .inl res → ¬ (200 ≤ res.StatusCode ∧ res.StatusCode ≤ 299) →
        (c.Do req v decode).v = v)
    ∧ (c.Do req v decode).sent = [req] :=
  Do_cases c req v decode

/-! ## email.go: Send and SendBatch -/

theorem canon_contentType : canonicalMIMEHeaderKey headerContentType = asc "Content-Type" := by
  decide
theorem canon_accept : canonicalMIMEHeaderKey headerAccept = asc "Accept" := by decide
theorem canon_serverToken :
    canonicalMIMEHeaderKey headerServerToken = asc "X-Postmark-Server-Token" := by decide
theorem canon_contentType_lit :
    canonicalMIMEHeaderKey (asc "Content-Type") = asc "Content-Type" := by decide
theorem canon_accept_lit : canonicalMIMEHeaderKey (asc "Accept") = asc "Accept" := by decide
theorem canon_serverToken_lit :
    canonicalMIMEHeaderKey (asc "X-Postmark-Server-Token") = asc "X-Postmark-Server-Token" := by
  decide
theorem key_ct_ne_accept : (asc "Content-Type" == asc "Accept") = false := by decide
theorem key_ct_ne_token : (asc "Content-Type" == asc "X-Postmark-Server-Token") = false := by
  decide
theorem key_accept_ne_token : (asc "Accept" == asc "X-Postmark-Server-Token") = false := by
  decide
theorem key_accept_ne_ct : (asc "Accept" == asc "Content-Type") = false := by decide
theorem key_token_ne_ct : (asc "X-Postmark-Server-Token" == asc "Content-Type") = false := by
  decide
theorem key_token_ne_accept : (asc "X-Postmark-Server-Token" == asc "Accept") = false := by
  decide

/-- After the three `Set` calls the request carries the three headers, whatever its header
held before. -/
theorem setEmailHeaders_has (c : Client) (req : Request) :
    hasEmailHeaders c.ServerToken (setEmailHeaders c req) := by
  simp [hasEmailHeaders, setEmailHeaders, HTTPHeader.get, HTTPHeader.set, canon_contentType,
    canon_accept, canon_serverToken, canon_contentType_lit, canon_accept_lit,
    canon_serverToken_lit, key_ct_ne_accept, key_ct_ne_token, key_accept_ne_token,
    key_accept_ne_ct, key_token_ne_ct, key_token_ne_accept, List.find?, List.filter,
    contentType, acceptType]

theorem Do_sent {V : Type} (c : Client) (req : Request) (v : Option V)
    (decode : JSON → V → V × Option StdError) : (c.Do req v decode).sent = [req] :=
  (Do_cases c req v decode).2.2.2.2

/-- The requests `Send` hands to the transport: none, or the request built by
`NewRequest` with the three headers set. -/
theorem Send_sent (L : Stdlib) (c : Client) (h : Heap) (email : Option Email) :
    sentBySend (EmailService.Send L c h email) = []
    ∨ ∃ req0, sentBySend (EmailService.Send L c h email) = [setEmailHeaders c req0] := by
  unfold EmailService.Send
  cases hb : c.NewRequest L h (asc "POST") (asc "email") (some email) marshalEmail with
  | panic => left; rfl
  | ret r =>
    obtain ⟨h1, req, err⟩ := r
    cases err with
    | some e => left; cases req <;> rfl
    | none =>
      cases req with
      | none => left; rfl
      | some req0 =>
        right
        refine ⟨req0, ?_⟩
        simp only []
        split <;> simp [sentBySend, Do_sent]

theorem SendBatch_sent (L : Stdlib) (c : Client) (h : Heap) (emails : Option (List Email)) :
    sentBySendBatch (EmailService.SendBatch L c h emails) = []
    ∨ ∃ req0, sentBySendBatch (EmailService.SendBatch L c h emails)
        = [setEmailHeaders c req0] := by
  unfold EmailService.SendBatch
  cases hb : c.NewRequest L h (asc "POST") (asc "email/batch") (some emails) marshalEmails with
  | panic => left; rfl
  | ret r =>
    obtain ⟨h1, req, err⟩ := r
    cases err with
    | some e => left; cases req <;> rfl
    | none =>
      cases req with
      | none => left; rfl
      | some req0 =>
        right
        refine ⟨req0, ?_⟩
        simp only []
        split <;> simp [sentBySendBatch, Do_sent]

/-- When `NewRequest` gives a request, `Send` hands exactly that request, with the headers
set, to the transport. -/
theorem Send_sent_of_request (L : Stdlib) (c : Client) (h h1 : Heap) (email : Option Email)
    (req0 : Request)
    (hb : c.NewRequest L h (asc "POST") (asc "email") (some email) marshalEmail
      = .ret { heap := h1, req := some req0, err := none }) :
    sentBySend (EmailService.Send L c h email) = [setEmailHeaders c req0] := by
  unfold EmailService.Send
  rw [hb]
  simp only []
  split <;> simp [sentBySend, Do_sent]

theorem SendBatch_sent_of_request (L : Stdlib) (c : Client) (h h1 : Heap)
    (emails : Option (List Email)) (req0 : Request)
    (hb : c.NewRequest L h (asc "POST") (asc "email/batch") (some emails) marshalEmails
      = .ret { heap := h1, req := some req0, err := none }) :
    sentBySendBatch (EmailService.SendBatch L c h emails) = [setEmailHeaders c req0] := by
  unfold EmailService.SendBatch
  rw [hb]
  simp only []
  split <;> simp [sentBySendBatch, Do_sent]

/-- The transport is the only part of the client that `Client.Do` consults, and only at
the request it is given. -/
theorem Do_client_congr {V : Type} (c : Client) (f : Request → Response ⊕ GoError)
    (req : Request) (v : Option V) (decode : JSON → V → V × Option StdError)
    (hf : f req = c.client req) :
    Client.Do { c with client := f } req v decode = c.Do req v decode := by
  simp [Client.Do, hf]

/-- When `NewRequest` gives a request, `Send` puts the transport's answer to that request,
with the headers set, into what it returns. -/
theorem Send_transport (L : Stdlib) (c : Client) (h h1 : Heap) (email : Option Email)
    (req0 : Request)
    (hb : c.NewRequest L h (asc "POST") (asc "email") (some email) marshalEmail
      = .ret { heap := h1, req := some req0, err := none }) :
    (∀ res, c.client (setEmailHeaders c req0) = .inl res →
        ∃ s, EmailService.Send L c h email = .ret s ∧ s.resp = some res)
    ∧ (∀ e, c.client (setEmailHeaders c req0) = .inr e →
        ∃ s, EmailService.Send L c h email = .ret s ∧ s.resp = none ∧ s.err = some e) := by
  have hd := Do_cases c (setEmailHeaders c req0) (some ({} : EmailResult)) (decodeEmailResult L)
  unfold EmailService.Send
  rw [hb]
  simp only []
  constructor
  · intro res ht
    have hr := hd.2.2.1 res ht
    split
    · exact ⟨_, rfl, hr⟩
    · exact ⟨_, rfl, hr⟩
  · intro e ht
    have hr := hd.2.1 e ht
    split
    · rename_i e2 he2
      rw [hr.2] at he2
      cases he2
      exact ⟨_, rfl, hr.1, rfl⟩
    · rename_i he2
      rw [hr.2] at he2
      cases he2

theorem SendBatch_transport (L : Stdlib) (c : Client) (h h1 : Heap)
    (emails : Option (List Email)) (req0 : Request)
    (hb : c.NewRequest L h (asc "POST") (asc "email/batch") (some emails) marshalEmails
      = .ret { heap := h1, req := some req0, err := none }) :
    (∀ res, c.client (setEmailHeaders c req0) = .inl res →
        ∃ s, EmailService.SendBatch L c h emails = .ret s ∧ s.resp = some res)
    ∧ (∀ e, c.client (setEmailHeaders c req0) = .inr e →
        ∃ s, EmailService.SendBatch L c h emails = .ret s ∧ s.resp = none ∧ s.err = some e) := by
  have hd := Do_cases c (setEmailHeaders c req0) (some (none : Option (List EmailResult)))
    (decodeEmailResults L)
  unfold EmailService.SendBatch
  rw [hb]
  simp only []
  constructor
  · intro res ht
    have hr := hd.2.2.1 res ht
    split
    · exact ⟨_, rfl, hr⟩
    · exact ⟨_, rfl, hr⟩
  · intro e ht
    have hr := hd.2.1 e ht
    split
    · rename_i e2 he2
      rw [hr.2] at he2
      cases he2
      exact ⟨_, rfl, hr.1, rfl⟩
    · rename_i he2
      rw [hr.2] at he2
      cases he2

/-- The outcome of `Send` depends on the transport only through its answers to requests
that carry the three headers. -/
theorem Send_client_congr (L : Stdlib) (c : Client) (h : Heap) (email : Option Email)
    (f : Request → Response ⊕ GoError)
    (hf : ∀ req, hasEmailHeaders c.ServerToken req → f req = c.client req) :
    EmailService.Send L { c with client := f } h email = EmailService.Send L c h email := by
  unfold EmailService.Send
  have hn : Client.NewRequest L { c with client := f } h (asc "POST") (asc "email") (some email)
      marshalEmail = c.NewRequest L h (asc "POST") (asc "email") (some email) marshalEmail := rfl
  rw [hn]
  cases hb : c.NewRequest L h (asc "POST") (asc "email") (some email) marshalEmail with
  | panic => rfl
  | ret r =>
    obtain ⟨h1, req, err⟩ := r
    cases err with
    | some e => cases req <;> rfl
    | none =>
      cases req with
      | none => rfl
      | some req0 =>
        have hs : setEmailHeaders { c with client := f } req0 = setEmailHeaders c req0 := rfl
        simp only [hs]
        rw [Do_client_congr c f (setEmailHeaders c req0) _ _
          (hf _ (setEmailHeaders_has c req0))]

theorem SendBatch_client_congr (L : Stdlib) (c : Client) (h : Heap)
    (emails : Option (List Email)) (f : Request → Response ⊕ GoError)
    (hf : ∀ req, hasEmailHeaders c.ServerToken req → f req = c.client req) :
    EmailService.SendBatch L { c with client := f } h emails
      = EmailService.SendBatch L c h emails := by
  unfold EmailService.SendBatch
  have hn : Client.NewRequest L { c with client := f } h (asc "POST") (asc "email/batch")
      (some emails) marshalEmails
      = c.NewRequest L h (asc "POST") (asc "email/batch") (some emails) marshalEmails := rfl
  rw [hn]
  cases hb : c.NewRequest L h (asc "POST") (asc "email/batch") (some emails) marshalEmails with
  | panic => rfl
  | ret r =>
    obtain ⟨h1, req, err⟩ := r
    cases err with
    | some e => cases req <;> rfl
    | none =>
      cases req with
      | none => rfl
      | some req0 =>
        have hs : setEmailHeaders { c with client := f } req0 = setEmailHeaders c req0 := rfl
        simp only [hs]
        rw [Do_client_congr c f (setEmailHeaders c req0) _ _
          (hf _ (setEmailHeaders_has c req0))]

/-- C9: the request that `Send`, respectively `SendBatch`, hands to the transport
(`c.client`) carries Content-Type = application/json, Accept = application/json and
X-Postmark-Server-Token = the client's ServerToken. Whenever `NewRequest` gives a request,
the transport is asked exactly that request with the three headers set, and its answer
(response or error) is what the method returns; the outcome depends on the transport only
through its answers to requests carrying the three headers. -/
theorem email_requests_carry_headers (L : Stdlib) (c : Client) (h : Heap) :
    (∀ email, ∀ req ∈ sentBySend (EmailService.Send L c h email),
        hasEmailHeaders c.ServerToken req)
    ∧ (∀ emails, ∀ req ∈ sentBySendBatch (EmailService.SendBatch L c h emails),
        hasEmailHeaders c.ServerToken req)
    ∧ (∀ email h1 req0,
        c.NewRequest L h (asc "POST") (asc "email") (some email) marshalEmail
          = .ret { heap := h1, req := some req0, err := none } →
        sentBySend (EmailService.Send L c h email) = [setEmailHeaders c req0])
    ∧ (∀ emails h1 req0,
        c.NewRequest L h (asc "POST") (asc "email/batch") (some emails) marshalEmails
          = .ret { heap := h1, req := some req0, err := none } →
        sentBySendBatch (EmailService.SendBatch L c h emails) = [setEmailHeaders c req0])
    ∧ (∀ email h1 req0,
        c.NewRequest L h (asc "POST") (asc "email") (some email) marshalEmail
          = .ret { heap := h1, req := some req0, err := none } →
        hasEmailHeaders c.ServerToken (setEmailHeaders c req0)
        ∧ (∀ res, c.client (setEmailHeaders c req0) = .inl res →
            ∃ s, EmailService.Send L c h email = .ret s ∧ s.resp = some res)
        ∧ (∀ e, c.client (setEmailHeaders c req0) = .inr e →
            ∃ s, EmailService.Send L c h email = .ret s ∧ s.resp = none ∧ s.err = some e))
    ∧ (∀ emails h1 req0,
        c.NewRequest L h (asc "POST") (asc "email/batch") (some emails) marshalEmails
          = .ret { heap := h1, req := some req0, err := none } →
        hasEmailHeaders c.ServerToken (setEmailHeaders c req0)
        ∧ (∀ res, c.client (setEmailHeaders c req0) = .inl res →
            ∃ s, EmailService.SendBatch L c h emails = .ret s ∧ s.resp = some res)
        ∧ (∀ e, c.client (setEmailHeaders c req0) = .inr e →
            ∃ s, EmailService.SendBatch L c h emails = .ret s ∧ s.resp = none
              ∧ s.err = some e))
    ∧ (∀ email (f : Request → Response ⊕ GoError),
        (∀ req, hasEmailHeaders c.ServerToken req → f req = c.client req) →
        EmailService.Send L { c with client := f } h email = EmailService.Send L c h email)
    ∧ (∀ emails (f : Request → Response ⊕ GoError),
        (∀ req, hasEmailHeaders c.ServerToken req → f req = c.client req) →
        EmailService.SendBatch L { c with client := f } h emails
          = EmailService.SendBatch L c h emails) := by
  refine ⟨?_, ?_, ?_, ?_, ?_, ?_, ?_, ?_⟩
  · intro email req hr
    rcases Send_sent L c h email with h0 | ⟨req0, h0⟩
    · rw [h0] at hr; cases hr
    · rw [h0] at hr
      rw [List.mem_singleton.mp hr]
      exact setEmailHeaders_has c req0
  · intro emails req hr
    rcases SendBatch_sent L c h emails with h0 | ⟨req0, h0⟩
    · rw [h0] at hr; cases hr
    · rw [h0] at hr
      rw [List.mem_singleton.mp hr]
      exact setEmailHeaders_has c req0
  · intro email h1 req0 hb
    exact Send_sent_of_request L c h h1 email req0 hb
  · intro emails h1 req0 hb
    exact SendBatch_sent_of_request L c h h1 emails req0 hb
  · intro email h1 req0 hb
    exact ⟨setEmailHeaders_has c req0, Send_transport L c h h1 email req0 hb⟩
  · intro emails h1 req0 hb
    exact ⟨setEmailHeaders_has c req0, SendBatch_transport L c h h1 emails req0 hb⟩
  · intro email f hf
    exact Send_client_congr L c h email f hf
  · intro emails f hf
    exact SendBatch_client_congr L c h emails f hf

theorem Do_v_isSome {V : Type} (c : Client) (req : Request) (dst : V)
    (decode : JSON → V → V × Option StdError)
    (he : (c.Do req (some dst) decode).err = none) :
    ∃ w, (c.Do req (some dst) decode).v = some w := by
  unfold Client.Do at he ⊢
  cases ht : c.client req with
  | inr e => simp [ht] at he
  | inl res =>
    cases hc : CheckResponse res with
    | some e => simp [ht, hc] at he
    | none => exact ⟨(decodeBody res.Body dst decode).1, by simp [hc]⟩

/-- Whenever `Send` returns, it returns a nil result if and only if it returns a non-nil
error; an error of `NewRequest` or of the transport comes with no response, and once the
transport has answered the response returned is the transport's response. -/
theorem Send_result_iff_error (L : Stdlib) (c : Client) (h : Heap) (email : Option Email)
    (s : SendResult) (hs : EmailService.Send L c h email = .ret s) :
    (s.result = none ↔ s.err ≠ none)
    ∧ (∀ r e, c.NewRequest L h (asc "POST") (asc "email") (some email) marshalEmail = .ret r →
        r.err = some e → s.resp = none ∧ s.err = some e)
    ∧ (∀ r req0, c.NewRequest L h (asc "POST") (asc "email") (some email) marshalEmail = .ret r →
        r.err = none → r.req = some req0 →
        (∀ e, c.client (setEmailHeaders c req0) = .inr e → s.resp = none ∧ s.err = some e)
        ∧ (∀ res, c.client (setEmailHeaders c req0) = .inl res → s.resp = some res)) := by
  unfold EmailService.Send at hs
  cases hb : c.NewRequest L h (asc "POST") (asc "email") (some email) marshalEmail with
  | panic => rw [hb] at hs; cases hs
  | ret r =>
    obtain ⟨h1, req, err⟩ := r
    rw [hb] at hs
    cases err with
    | some e =>
      have hs2 : s = { heap := h1, result := none, resp := none, err := some e, sent := [] } := by
        cases req <;> simp at hs <;> exact hs.symm
      subst hs2
      refine ⟨by simp, ?_, ?_⟩
      · intro r e2 hr he
        cases hr
        simp at he
        simp [he]
      · intro r req0 hr he
        cases hr
        simp at he
    | none =>
      cases req with
      | none => simp at hs
      | some req0 =>
        simp only [] at hs
        have hd := Do_cases c (setEmailHeaders c req0) (some ({} : EmailResult))
          (decodeEmailResult L)
        cases hde : (c.Do (setEmailHeaders c req0) (some ({} : EmailResult))
            (decodeEmailResult L)).err with
        | some e =>
          rw [hde] at hs
          simp only [Outcome.ret.injEq] at hs
          subst hs
          refine ⟨by simp, ?_, ?_⟩
          · intro r e2 hr he
            cases hr
            simp at he
          · intro r req1 hr _ hq
            cases hr
            simp only [Option.some.injEq] at hq
            subst hq
            refine ⟨fun e2 ht => ?_, fun res ht => ?_⟩
            · have := hd.2.1 e2 ht
              rw [hde] at this
              exact this
            · exact hd.2.2.1 res ht
        | none =>
          rw [hde] at hs
          simp only [Outcome.ret.injEq] at hs
          subst hs
          obtain ⟨w, hw⟩ := Do_v_isSome c (setEmailHeaders c req0) ({} : EmailResult)
            (decodeEmailResult L) hde
          refine ⟨by simp [hw], ?_, ?_⟩
          · intro r e2 hr he
            cases hr
            simp at he
          · intro r req1 hr _ hq
            cases hr
            simp only [Option.some.injEq] at hq
            subst hq
            refine ⟨fun e2 ht => ?_, fun res ht => ?_⟩
            · have := (hd.2.1 e2 ht).2
              rw [hde] at this
              cases this
            · exact hd.2.2.1 res ht

set_option maxRecDepth 100000 in
/-- C7 at an email holding an attachment without Content: `Send` panics while the request
is built, so it returns neither a result nor an error. -/
theorem Send_panics_without_content :
    (EmailService.Send sampleStdlib (clientAnswering okResponse) testHeap
      (some emailWithoutContent)).isPanic = true := by
  decide

theorem decodeEmailResultField_fatal (L : Stdlib) (r : EmailResult) (kv : GoString × JSON)
    (hf : (decodeEmailResultField L r kv).2.2 = true) :
    (decodeEmailResultField L r kv).2.1 ≠ none := by
  have ht : ∀ v, (decodeTimePtr L v).2.2 = true → (decodeTimePtr L v).2.1 ≠ none := by
    intro v
    unfold decodeTimePtr
    cases v <;> simp
    split <;> simp
  unfold decodeEmailResultField at hf ⊢
  by_cases h1 : keyMatches kv.1 "To" = true
  · simp [h1] at hf
  · by_cases h2 : keyMatches kv.1 "SubmittedAt" = true
    · simp only [h1, h2, if_true, if_false, Bool.false_eq_true] at hf ⊢
      exact ht _ hf
    · by_cases h3 : keyMatches kv.1 "MessageID" = true
      · simp [h1, h2, h3] at hf
      · simp [h1, h2, h3] at hf

theorem saveError_eq_none (a b : Option StdError) (h : saveError a b = none) :
    a = none ∧ b = none := by
  cases a <;> cases b <;> simp_all [saveError]

theorem decodeEmailResultFields_none (L : Stdlib) (fs : List (GoString × JSON)) :
    ∀ (r : EmailResult) (saved : Option StdError),
      (decodeEmailResultFields L fs r saved).2.1 = none →
        saved = none ∧ (decodeEmailResultFields L fs r saved).2.2 = false := by
  induction fs with
  | nil => intro r saved h; exact ⟨h, rfl⟩
  | cons kv rest ih =>
    intro r saved h
    unfold decodeEmailResultFields at h ⊢
    by_cases hf : (decodeEmailResultField L r kv).2.2 = true
    · simp only [hf, if_true] at h
      exact absurd h (decodeEmailResultField_fatal L r kv hf)
    · simp only [hf] at h ⊢
      have := ih _ _ h
      exact ⟨(saveError_eq_none _ _ this.1).1, this.2⟩

theorem decodeEmailResultValue_none (L : Stdlib) (j : JSON) (r : EmailResult)
    (saved : Option StdError) (h : (decodeEmailResultValue L j r saved).2.1 = none) :
    saved = none ∧ (decodeEmailResultValue L j r saved).2.2 = false := by
  unfold decodeEmailResultValue at h ⊢
  cases j with
  | null => exact ⟨h, rfl⟩
  | obj fields => exact decodeEmailResultFields_none L fields r saved h
  | bool b => exact ⟨(saveError_eq_none _ _ h).1, rfl⟩
  | num n => exact ⟨(saveError_eq_none _ _ h).1, rfl⟩
  | numOther t => exact ⟨(saveError_eq_none _ _ h).1, rfl⟩
  | str s => exact ⟨(saveError_eq_none _ _ h).1, rfl⟩
  | arr items => exact ⟨(saveError_eq_none _ _ h).1, rfl⟩

/-- An array decoded without error gives one result per item, in order: the item decoded
into a zero `EmailResult`. -/
theorem decodeEmailResultItems_none (L : Stdlib) (items : List JSON) :
    ∀ saved, (decodeEmailResultItems L items saved).2.1 = none →
      saved = none
      ∧ (decodeEmailResultItems L items saved).1
          = items.map (fun j => (decodeEmailResult L j {}).1) := by
  induction items with
  | nil => intro saved h; exact ⟨h, rfl⟩
  | cons j rest ih =>
    intro saved h
    unfold decodeEmailResultItems at h ⊢
    by_cases hf : (decodeEmailResultValue L j {} saved).2.2 = true
    · simp only [hf, if_true] at h
      have := (decodeEmailResultValue_none L j {} saved h).2
      rw [hf] at this
      cases this
    · simp only [hf] at h ⊢
      have h1 := ih _ h
      have h2 := decodeEmailResultValue_none L j {} saved h1.1
      refine ⟨h2.1, ?_⟩
      simp only [List.map_cons, Bool.false_eq_true, if_false]
      rw [h1.2]
      have hs : saved = none := h2.1
      subst hs
      rfl

/-- C8 (amended): if `SendBatch` returns without error, then `NewRequest` built a request,
the transport (`c.client`), given that request with the headers set, answered with a
response whose status is in [200,299], that response is the one returned, and the results
are the elements of its array decoded in response order, one per element of the response
(none for a `null` response); their number is the length of the response array, which is
not compared with the number of emails. -/
theorem SendBatch_results_follow_response (L : Stdlib) (c : Client) (h : Heap)
    (emails : Option (List Email)) (s : SendBatchResult)
    (hs : EmailService.SendBatch L c h emails = .ret s) (he : s.err = none) :
    ∃ h1 req0 res,
      c.NewRequest L h (asc "POST") (asc "email/batch") (some emails) marshalEmails
        = .ret { heap := h1, req := some req0, err := none }
      ∧ c.client (setEmailHeaders c req0) = .inl res
      ∧ s.resp = some res ∧ (200 ≤ res.StatusCode ∧ res.StatusCode ≤ 299)
      ∧ ((res.Body.first = .ok .null ∧ s.results = none)
        ∨ ∃ items, res.Body.first = .ok (.arr items)
            ∧ s.results = some (items.map (fun j => (decodeEmailResult L j {}).1))
            ∧ s.results.map List.length = some items.length) := by
  unfold EmailService.SendBatch at hs
  cases hb : c.NewRequest L h (asc "POST") (asc "email/batch") (some emails) marshalEmails with
  | panic => rw [hb] at hs; cases hs
  | ret r =>
    obtain ⟨h1, req, err⟩ := r
    rw [hb] at hs
    cases err with
    | some e =>
      have hs2 : s = { heap := h1, results := none, resp := none, err := some e, sent := [] } := by
        cases req <;> simp at hs <;> exact hs.symm
      subst hs2
      simp at he
    | none =>
      cases req with
      | none => simp at hs
      | some req0 =>
        simp only [] at hs
        cases ht : c.client (setEmailHeaders c req0) with
        | inr e =>
          simp only [Client.Do, ht] at hs
          simp only [Outcome.ret.injEq] at hs
          subst hs
          simp at he
        | inl res =>
          have h4 := CheckResponse_cases res
          cases hc : CheckResponse res with
          | some e =>
            simp only [Client.Do, ht, hc] at hs
            simp only [Outcome.ret.injEq] at hs
            subst hs
            simp at he
          | none =>
            have hrange := h4.1.1 hc
            simp only [Client.Do, ht, hc, decodeBody] at hs
            cases hf : res.Body.first with
            | error e =>
              simp only [hf, Option.map_some'] at hs
              simp only [Outcome.ret.injEq] at hs
              subst hs
              simp at he
            | ok j =>
              simp only [hf] at hs
              cases hd : (decodeEmailResults L j none).2 with
              | some e =>
                simp only [hd, Option.map_some'] at hs
                simp only [Outcome.ret.injEq] at hs
                subst hs
                simp at he
              | none =>
                simp only [hd, Option.map_none'] at hs
                simp only [Outcome.ret.injEq] at hs
                subst hs
                refine ⟨h1, req0, res, rfl, ht, rfl, hrange, ?_⟩
                cases j with
                | null => left; exact ⟨hf, rfl⟩
                | arr items =>
                  right
                  have hi := decodeEmailResultItems_none L items none
                    (by simpa [decodeEmailResults] using hd)
                  refine ⟨items, hf, ?_, ?_⟩
                  · simp [decodeEmailResults, hi.2]
                  · simp [decodeEmailResults, hi.2]
                | bool b => simp [decodeEmailResults] at hd
                | num n => simp [decodeEmailResults] at hd
                | numOther t => simp [decodeEmailResults] at hd
                | str t => simp [decodeEmailResults] at hd
                | obj fs => simp [decodeEmailResults] at hd

set_option maxRecDepth 100000 in
/-- The batch of email_test.go: two results and no error for zero emails. -/
theorem batch_example_summary :
    batchSummary (EmailService.SendBatch sampleStdlib (clientAnswering batchResponse) testHeap
      (some [])) = some (some 2, true) := by
  decide

set_option maxRecDepth 100000 in
/-- C8 as stated fails, on the case of email_test.go: `SendBatch` of zero emails, answered
with an array of two results, returns two results and no error. -/
theorem SendBatch_count_not_checked :
    batchSummary (EmailService.SendBatch sampleStdlib (clientAnswering batchResponse) testHeap
      (some [])) = some (some 2, true) := by
  decide

/-- The batch of email_test.go, run through C8. -/
theorem SendBatch_results_follow_response_witness :
    ∃ s, EmailService.SendBatch sampleStdlib (clientAnswering batchResponse) testHeap (some [])
        = .ret s ∧ s.err = none
      ∧ ∃ h1 req0 res,
        (clientAnswering batchResponse).NewRequest sampleStdlib testHeap (asc "POST")
            (asc "email/batch") (some (some [])) marshalEmails
          = .ret { heap := h1, req := some req0, err := none }
        ∧ (clientAnswering batchResponse).client
            (setEmailHeaders (clientAnswering batchResponse) req0) = .inl res
        ∧ s.resp = some res ∧ (200 ≤ res.StatusCode ∧ res.StatusCode ≤ 299)
        ∧ ((res.Body.first = .ok .null ∧ s.results = none)
          ∨ ∃ items, res.Body.first = .ok (.arr items)
              ∧ s.results = some (items.map (fun j => (decodeEmailResult sampleStdlib j {}).1))
              ∧ s.results.map List.length = some items.length) := by
  have hsum := batch_example_summary
  cases hs : EmailService.SendBatch sampleStdlib (clientAnswering batchResponse) testHeap
      (some []) with
  | panic => rw [hs] at hsum; simp [batchSummary] at hsum
  | ret s =>
    rw [hs] at hsum
    have he : s.err = none := by
      simp only [batchSummary, Option.some.injEq, Prod.mk.injEq] at hsum
      exact Option.isNone_iff_eq_none.mp hsum.2
    exact ⟨s, rfl, he, SendBatch_results_follow_response _ _ _ _ s hs he⟩

/-- The request `http.NewRequest` gives for a valid method and an accepted URL. -/
theorem httpNewRequest_ok (L : Stdlib) (method url : GoString) (body : Option JSON) (u : URL)
    (hm : method = [] ∨ validMethod method = true) (hu : L.requestURL url = some u) :
    ∃ req, httpNewRequest L method url body = (some req, none) ∧ req.Body = body := by
  have hv : validMethod (if method = [] then asc "GET" else method) = true := by
    rcases hm with hm | hm
    · subst hm; decide
    · by_cases he : method = []
      · subst he; decide
      · simp [he, hm]
  simp [httpNewRequest, hv, hu]

/-- Whenever `http.NewRequest` returns an error it returns no request. -/
theorem httpNewRequest_err (L : Stdlib) (method url : GoString) (body : Option JSON)
    (h : (httpNewRequest L method url body).2 ≠ none) :
    (httpNewRequest L method url body).1 = none := by
  unfold httpNewRequest at h ⊢
  simp only [] at h ⊢
  by_cases hv : validMethod (if method = [] then asc "GET" else method) = false
  · simp [hv]
  · cases hq : L.requestURL url with
    | none => simp [hv, hq]
    | some u => simp [hv, hq] at h

/-- C10 (amended): for every method that is empty or an HTTP token and every path that
`url.Parse` accepts and whose resolution `http.NewRequest` accepts, `NewRequest` with a nil
body succeeds with a request that has no payload, and with a body that serializes to the
JSON document j it succeeds with a request whose payload is j; whenever `NewRequest`
returns an error it returns no request. -/
theorem NewRequest_payload {B : Type} (L : Stdlib) (c : Client) (h : Heap)
    (method path : GoString) (marshal : Heap → B → Outcome (Heap × JSON × Option StdError)) :
    (∀ base rel u, (method = [] ∨ validMethod method = true) → L.urlParse path = some rel →
      c.BaseURL = some base → L.requestURL (L.urlString (L.resolveReference base rel)) = some u →
      (∃ req, c.NewRequest L h method path (none : Option B) marshal
          = .ret { heap := h, req := some req, err := none } ∧ req.Body = none)
      ∧ (∀ b h1 j, marshal h b = .ret (h1, j, none) →
          ∃ req, c.NewRequest L h method path (some b) marshal
            = .ret { heap := h1, req := some req, err := none } ∧ req.Body = some j))
    ∧ (∀ body r, c.NewRequest L h method path body marshal = .ret r → r.err ≠ none →
        r.req = none) := by
  constructor
  · intro base rel u hm hp hb hu
    constructor
    · obtain ⟨req, hr, hbody⟩ := httpNewRequest_ok L method _ none u hm hu
      exact ⟨req, by simp [Client.NewRequest, hp, hb, hr], hbody⟩
    · intro b h1 j hj
      obtain ⟨req, hr, hbody⟩ := httpNewRequest_ok L method _ (some j) u hm hu
      exact ⟨req, by simp [Client.NewRequest, hp, hb, hj, hr], hbody⟩
  · intro body r hr he
    unfold Client.NewRequest at hr
    cases hp : L.urlParse path with
    | none => simp [hp] at hr; subst hr; rfl
    | some rel =>
      cases hb : c.BaseURL with
      | none => simp [hp, hb] at hr
      | some base =>
        simp only [hp, hb] at hr
        have fin : ∀ h1 buf r,
            (match httpNewRequest L method (L.urlString (L.resolveReference base rel)) buf with
              | (_, some e) =>
                (Outcome.ret { heap := h1, req := none, err := some (.std e) } :
                  Outcome NewRequestResult)
              | (req, none) => .ret { heap := h1, req := req, err := none }) = .ret r →
            r.err ≠ none → r.req = none := by
          intro h1 buf r hr he
          split at hr
          · cases hr; rfl
          · cases hr; simp at he
        cases body with
        | none => exact fin _ _ _ hr he
        | some b =>
          simp only [] at hr
          cases hmar : marshal h b with
          | panic => simp [hmar] at hr
          | ret t =>
            obtain ⟨h1, j, e⟩ := t
            cases e with
            | some e => simp [hmar] at hr; subst hr; rfl
            | none =>
              simp only [hmar] at hr
              exact fin _ _ _ hr he

set_option maxRecDepth 100000 in
/-- C10 as stated fails: the method "G T" is no HTTP token, so `NewRequest` with a valid
path and a nil body returns an error and no request. -/
theorem NewRequest_rejects_method :
    sampleStdlib.urlParse (asc "/") = some { Path := asc "/" }
    ∧ requestSummary (Client.NewRequest sampleStdlib (clientAnswering okResponse) testHeap
        (asc "G T") (asc "/") (none : Option Int) marshalTestStruct) = some (false, true) := by
  decide

/-- C9 on the valid email of email_test.go: the transport is asked one request, which
carries the three headers, and the response it answers is the one `Send` returns. -/
theorem email_requests_carry_headers_witness :
    ∃ req, sentBySend (EmailService.Send sampleStdlib (clientAnswering okResponse) testHeap
        (some {})) = [req]
      ∧ hasEmailHeaders (asc "super-secret-server-token") req
      ∧ (clientAnswering okResponse).client req = .inl okResponse
      ∧ ∃ s, EmailService.Send sampleStdlib (clientAnswering okResponse) testHeap (some {})
          = .ret s ∧ s.resp = some okResponse := by
  have t := email_requests_carry_headers sampleStdlib (clientAnswering okResponse) testHeap
  obtain ⟨h1, req0, hb⟩ : ∃ h1 req0,
      (clientAnswering okResponse).NewRequest sampleStdlib testHeap (asc "POST") (asc "email")
        (some (some ({} : Email))) marshalEmail
        = .ret { heap := h1, req := some req0, err := none } := ⟨_, _, rfl⟩
  exact ⟨_, t.2.2.1 (some {}) h1 req0 hb, (t.2.2.2.2.1 (some {}) h1 req0 hb).1, rfl,
    (t.2.2.2.2.1 (some {}) h1 req0 hb).2.1 okResponse rfl⟩

/-- C10 on the requests of postmark_test.go: GET /test with the body {A:0} gives the
payload {"A":0}, and GET / with a nil body gives no payload. -/
theorem NewRequest_payload_witness :
    (∃ req, Client.NewRequest sampleStdlib (clientAnswering okResponse) testHeap (asc "GET")
        (asc "/test") (some (0 : Int)) marshalTestStruct
          = .ret { heap := testHeap, req := some req, err := none }
        ∧ req.Body = some (.obj [(asc "A", .num 0)]))
    ∧ (∃ req, Client.NewRequest sampleStdlib (clientAnswering okResponse) testHeap (asc "GET")
        (asc "/") (none : Option Int) marshalTestStruct
          = .ret { heap := testHeap, req := some req, err := none }
        ∧ req.Body = none) :=
  ⟨((NewRequest_payload sampleStdlib (clientAnswering okResponse) testHeap (asc "GET")
      (asc "/test") marshalTestStruct).1 defaultBaseURL { Path := asc "/test" } _
      (Or.inr (by decide)) (by decide) rfl rfl).2 0 testHeap _ rfl,
   ((NewRequest_payload sampleStdlib (clientAnswering okResponse) testHeap (asc "GET")
      (asc "/") marshalTestStruct).1 defaultBaseURL { Path := asc "/" } _
      (Or.inr (by decide)) (by decide) rfl rfl).1⟩

/-! ## Attachment: malformed and absent content -/

/-- A string stored into the Name field of a well separated attachment. -/
theorem decodeAttachmentField_name (h : Heap) (t : Attachment) (k s : GoString)
    (wf : wellSeparated h t) (hk : keyMatches k "Name" = true) :
    (decodeAttachmentField (h, t, none) (k, .str s)).2.2 = none
      ∧ wellSeparated (decodeAttachmentField (h, t, none) (k, .str s)).1
          (decodeAttachmentField (h, t, none) (k, .str s)).2.1
      ∧ ((decodeAttachmentField (h, t, none) (k, .str s)).2.1.view
          (decodeAttachmentField (h, t, none) (k, .str s)).1)
        = { t.view h with Name := some s } := by
  obtain ⟨n, c, ty, i⟩ := t
  obtain ⟨nd, lt⟩ := wf
  cases n <;> cases c <;> cases ty <;> cases i <;>
    simp_all [decodeAttachmentField, decodeStringPtr, saveError, Heap.alloc, Heap.store,
      Heap.load, wellSeparated, Attachment.ptrs, Attachment.view] <;>
    (repeat' apply And.intro) <;> (unfold Ptr at *; omega)

/-- A string stored into the Content field of a well separated attachment. -/
theorem decodeAttachmentField_content (h : Heap) (t : Attachment) (k s : GoString)
    (wf : wellSeparated h t) (h1 : keyMatches k "Name" = false)
    (hk : keyMatches k "Content" = true) :
    (decodeAttachmentField (h, t, none) (k, .str s)).2.2 = none
      ∧ wellSeparated (decodeAttachmentField (h, t, none) (k, .str s)).1
          (decodeAttachmentField (h, t, none) (k, .str s)).2.1
      ∧ ((decodeAttachmentField (h, t, none) (k, .str s)).2.1.view
          (decodeAttachmentField (h, t, none) (k, .str s)).1)
        = { t.view h with Content := some s } := by
  obtain ⟨n, c, ty, i⟩ := t
  obtain ⟨nd, lt⟩ := wf
  cases n <;> cases c <;> cases ty <;> cases i <;>
    simp_all [decodeAttachmentField, decodeStringPtr, saveError, Heap.alloc, Heap.store,
      Heap.load, wellSeparated, Attachment.ptrs, Attachment.view] <;>
    (repeat' apply And.intro) <;> (unfold Ptr at *; omega)

/-- A string stored into the ContentType field of a well separated attachment. -/
theorem decodeAttachmentField_type (h : Heap) (t : Attachment) (k s : GoString)
    (wf : wellSeparated h t) (h1 : keyMatches k "Name" = false)
    (h2 : keyMatches k "Content" = false) (hk : keyMatches k "ContentType" = true) :
    (decodeAttachmentField (h, t, none) (k, .str s)).2.2 = none
      ∧ wellSeparated (decodeAttachmentField (h, t, none) (k, .str s)).1
          (decodeAttachmentField (h, t, none) (k, .str s)).2.1
      ∧ ((decodeAttachmentField (h, t, none) (k, .str s)).2.1.view
          (decodeAttachmentField (h, t, none) (k, .str s)).1)
        = { t.view h with ContentType := some s } := by
  obtain ⟨n, c, ty, i⟩ := t
  obtain ⟨nd, lt⟩ := wf
  cases n <;> cases c <;> cases ty <;> cases i <;>
    simp_all [decodeAttachmentField, decodeStringPtr, saveError, Heap.alloc, Heap.store,
      Heap.load, wellSeparated, Attachment.ptrs, Attachment.view] <;>
    (repeat' apply And.intro) <;> (unfold Ptr at *; omega)

/-- A string stored into the ContentID field of a well separated attachment. -/
theorem decodeAttachmentField_id (h : Heap) (t : Attachment) (k s : GoString)
    (wf : wellSeparated h t) (h1 : keyMatches k "Name" = false)
    (h2 : keyMatches k "Content" = false) (h3 : keyMatches k "ContentType" = false)
    (hk : keyMatches k "ContentID" = true) :
    (decodeAttachmentField (h, t, none) (k, .str s)).2.2 = none
      ∧ wellSeparated (decodeAttachmentField (h, t, none) (k, .str s)).1
          (decodeAttachmentField (h, t, none) (k, .str s)).2.1
      ∧ ((decodeAttachmentField (h, t, none) (k, .str s)).2.1.view
          (decodeAttachmentField (h, t, none) (k, .str s)).1)
        = { t.view h with ContentID := some s } := by
  obtain ⟨n, c, ty, i⟩ := t
  obtain ⟨nd, lt⟩ := wf
  cases n <;> cases c <;> cases ty <;> cases i <;>
    simp_all [decodeAttachmentField, decodeStringPtr, saveError, Heap.alloc, Heap.store,
      Heap.load, wellSeparated, Attachment.ptrs, Attachment.view] <;>
    (repeat' apply And.intro) <;> (unfold Ptr at *; omega)

/-- A member whose key selects no field is skipped. -/
theorem decodeAttachmentField_skip (st : Heap × Attachment × Option StdError)
    (kv : GoString × JSON) (hk : isAttachmentKey kv.1 = false) :
    decodeAttachmentField st kv = st := by
  simp only [isAttachmentKey, Bool.or_eq_false_iff] at hk
  simp [decodeAttachmentField, hk.1.1.1, hk.1.1.2, hk.1.2, hk.2]

theorem keyMatches_fold (k : GoString) (name : String) (hk : keyMatches k name = true) :
    foldName k = foldName (asc name) := by
  simp only [keyMatches, Bool.or_eq_true, beq_iff_eq] at hk
  rcases hk with hk | hk
  · rw [hk]
  · exact hk

/-- No key selects two fields of `Attachment`. -/
theorem keyMatches_exclusive (k : GoString) :
    (keyMatches k "Name" = true → keyMatches k "Content" = false
      ∧ keyMatches k "ContentType" = false ∧ keyMatches k "ContentID" = false)
    ∧ (keyMatches k "Content" = true → keyMatches k "Name" = false
      ∧ keyMatches k "ContentType" = false ∧ keyMatches k "ContentID" = false)
    ∧ (keyMatches k "ContentType" = true → keyMatches k "Name" = false
      ∧ keyMatches k "Content" = false ∧ keyMatches k "ContentID" = false)
    ∧ (keyMatches k "ContentID" = true → keyMatches k "Name" = false
      ∧ keyMatches k "Content" = false ∧ keyMatches k "ContentType" = false) := by
  have ex : ∀ a b : String, foldName (asc a) ≠ foldName (asc b) →
      keyMatches k a = true → keyMatches k b = false := by
    intro a b hne ha
    cases hb : keyMatches k b with
    | false => rfl
    | true =>
      exact absurd ((keyMatches_fold k a ha).symm.trans (keyMatches_fold k b hb)) hne
  refine ⟨fun hk => ⟨ex _ _ (by decide) hk, ex _ _ (by decide) hk, ex _ _ (by decide) hk⟩,
    fun hk => ⟨ex _ _ (by decide) hk, ex _ _ (by decide) hk, ex _ _ (by decide) hk⟩,
    fun hk => ⟨ex _ _ (by decide) hk, ex _ _ (by decide) hk, ex _ _ (by decide) hk⟩,
    fun hk => ⟨ex _ _ (by decide) hk, ex _ _ (by decide) hk, ex _ _ (by decide) hk⟩⟩

/-- The last member of an object extended by one member. -/
theorem lastMember_append (fs : List (GoString × JSON)) (kv : GoString × JSON)
    (name : String) :
    lastMember (fs ++ [kv]) name
      = if keyMatches kv.1 name = true then
          (match kv.2 with
            | .str s => some s
            | _ => none)
        else lastMember fs name := by
  unfold lastMember
  rw [List.reverse_append]
  simp only [List.reverse_cons, List.reverse_nil, List.nil_append, List.singleton_append,
    List.find?_cons]
  cases hk : keyMatches kv.1 name with
  | true => obtain ⟨k, v⟩ := kv; cases v <;> simp
  | false => simp

/-- The members of an object decoded one after the other into an empty attachment: no
error, and each field holds the string of its last member. -/
theorem foldl_decodeAttachmentField (h : Heap) (fields : List (GoString × JSON))
    (hs : stringMembers fields) :
    (fields.foldl decodeAttachmentField (h, {}, none)).2.2 = none
    ∧ wellSeparated (fields.foldl decodeAttachmentField (h, {}, none)).1
        (fields.foldl decodeAttachmentField (h, {}, none)).2.1
    ∧ (fields.foldl decodeAttachmentField (h, {}, none)).2.1.view
        (fields.foldl decodeAttachmentField (h, {}, none)).1
      = { Name := lastMember fields "Name", Content := lastMember fields "Content",
          ContentType := lastMember fields "ContentType",
          ContentID := lastMember fields "ContentID" } := by
  induction fields using List.reverseRecOn with
  | nil =>
    refine ⟨rfl, ?_, rfl⟩
    simp [wellSeparated, Attachment.ptrs]
  | append_singleton fs kv ih =>
    have hs1 : stringMembers fs := fun x hx => hs x (List.mem_append_left _ hx)
    obtain ⟨he, wf, hv⟩ := ih hs1
    rw [List.foldl_append, List.foldl_cons, List.foldl_nil]
    generalize hst : fs.foldl decodeAttachmentField (h, {}, none) = st at he wf hv
    obtain ⟨h0, t0, e0⟩ := st
    simp only at he wf hv
    subst he
    simp only [lastMember_append]
    cases hk : isAttachmentKey kv.1 with
    | false =>
      rw [decodeAttachmentField_skip _ _ hk]
      simp only [isAttachmentKey, Bool.or_eq_false_iff] at hk
      simp [hk.1.1.1, hk.1.1.2, hk.1.2, hk.2, wf, hv]
    | true =>
      obtain ⟨s, hstr⟩ := hs kv (List.mem_append_right _ (List.mem_singleton.mpr rfl)) hk
      obtain ⟨k, v⟩ := kv
      simp only at hstr hk
      subst hstr
      have ex := keyMatches_exclusive k
      by_cases k1 : keyMatches k "Name" = true
      · obtain ⟨e, w, vw⟩ := decodeAttachmentField_name h0 t0 k s wf k1
        refine ⟨e, w, ?_⟩
        rw [vw, hv]
        simp [k1, (ex.1 k1).1, (ex.1 k1).2.1, (ex.1 k1).2.2]
      · have k1f : keyMatches k "Name" = false := by simpa using k1
        by_cases k2 : keyMatches k "Content" = true
        · obtain ⟨e, w, vw⟩ := decodeAttachmentField_content h0 t0 k s wf k1f k2
          refine ⟨e, w, ?_⟩
          rw [vw, hv]
          simp [k2, (ex.2.1 k2).1, (ex.2.1 k2).2.1, (ex.2.1 k2).2.2]
        · have k2f : keyMatches k "Content" = false := by simpa using k2
          by_cases k3 : keyMatches k "ContentType" = true
          · obtain ⟨e, w, vw⟩ := decodeAttachmentField_type h0 t0 k s wf k1f k2f k3
            refine ⟨e, w, ?_⟩
            rw [vw, hv]
            simp [k3, (ex.2.2.1 k3).1, (ex.2.2.1 k3).2.1, (ex.2.2.1 k3).2.2]
          · have k3f : keyMatches k "ContentType" = false := by simpa using k3
            have k4 : keyMatches k "ContentID" = true := by
              simpa [isAttachmentKey, k1f, k2f, k3f] using hk
            obtain ⟨e, w, vw⟩ := decodeAttachmentField_id h0 t0 k s wf k1f k2f k3f k4
            refine ⟨e, w, ?_⟩
            rw [vw, hv]
            simp [k4, (ex.2.2.2 k4).1, (ex.2.2.2 k4).2.1, (ex.2.2.2 k4).2.2]

/-- The method `UnmarshalJSON` on an object whose members are strings and that has a Content
member: no error, every field holds the string of its last member, and Content holds what
`decodeBase64` yields for its last member, whatever error comes with it. -/
theorem unmarshal_object (h : Heap) (recv : Attachment) (fields : List (GoString × JSON))
    (c : GoString) (hs : stringMembers fields) (hc : lastMember fields "Content" = some c) :
    ∃ h2 a2, Attachment.UnmarshalJSON h recv (some (.obj fields)) = .ret (h2, a2, none)
      ∧ a2.view h2
        = { Name := lastMember fields "Name", Content := some (decodeBase64 c).1,
            ContentType := lastMember fields "ContentType",
            ContentID := lastMember fields "ContentID" } := by
  obtain ⟨he, wf, hv⟩ := foldl_decodeAttachmentField h fields hs
  unfold Attachment.UnmarshalJSON unmarshalAttachmentStruct
  simp only []
  generalize fields.foldl decodeAttachmentField (h, {}, none) = st at he wf hv
  obtain ⟨h1, t1, e1⟩ := st
  simp only at he wf hv
  subst he
  rw [hc] at hv
  obtain ⟨n, ct, ty, i⟩ := t1
  obtain ⟨nd, lt⟩ := wf
  cases ct with
  | none => simp [Attachment.view] at hv
  | some p =>
    refine ⟨h1.store p (decodeBase64 (h1.load p)).1,
      { Name := n, Content := some p, ContentType := ty, ContentID := i }, rfl, ?_⟩
    simp only [Attachment.view, AttachmentView.mk.injEq, Option.map_some',
      Option.some.injEq] at hv
    obtain ⟨hn, hcn, hty, hid⟩ := hv
    rw [← hn, ← hty, ← hid, ← hcn]
    clear hn hty hid hcn hc hs
    cases n <;> cases ty <;> cases i <;>
      simp_all [Heap.store, Heap.load, wellSeparated, Attachment.ptrs, Attachment.view] <;>
      (repeat' apply And.intro) <;> (intro e; exfalso; unfold Ptr at *; omega)

/-- C11 (amended): for every JSON attachment object (each member that selects Name,
Content, ContentType or ContentID is a string; other members are arbitrary) whose Content
string is not valid standard base64, `UnmarshalJSON` returns no error: the decode error
is discarded, Name, ContentType and ContentID are populated from the JSON (the string of
the last member selecting the field, absent when there is none), and Content is left as
the string `decodeBase64` returns together with the error. -/
theorem unmarshal_keeps_decoded_prefix (h : Heap) (recv : Attachment)
    (fields : List (GoString × JSON)) (c : GoString) (hs : stringMembers fields)
    (hc : lastMember fields "Content" = some c) (hbad : (decodeBase64 c).2 ≠ none) :
    (decodeBase64 c).2 ≠ none
    ∧ ∃ h2 a2, Attachment.UnmarshalJSON h recv (some (.obj fields)) = .ret (h2, a2, none)
      ∧ a2.view h2
        = { Name := lastMember fields "Name", Content := some (decodeBase64 c).1,
            ContentType := lastMember fields "ContentType",
            ContentID := lastMember fields "ContentID" } :=
  ⟨hbad, unmarshal_object h recv fields c hs hc⟩

theorem stringMembers_unordered : stringMembers unorderedMembers := by
  intro kv hkv hk
  simp only [unorderedMembers, List.mem_cons, List.mem_singleton, List.not_mem_nil,
    or_false] at hkv
  rcases hkv with rfl | rfl | rfl
  · exact ⟨_, rfl⟩
  · exact ⟨_, rfl⟩
  · exact absurd hk (by decide)

set_option maxRecDepth 100000 in
/-- C11 on an object with the members in another order and a lower-case Content key,
whose Content is `QUJD!`: no error, the Name is populated, and Content is "ABC". -/
theorem unmarshal_keeps_decoded_prefix_witness :
    stringMembers unorderedMembers
    ∧ lastMember unorderedMembers "Content" = some corruptBase64
    ∧ (decodeBase64 corruptBase64).2 ≠ none
    ∧ ∃ h2 a2, Attachment.UnmarshalJSON testHeap {} (some (.obj unorderedMembers))
        = .ret (h2, a2, none)
      ∧ a2.view h2
        = { Name := some (asc "Name"), Content := some (asc "ABC"),
            ContentType := none, ContentID := none } := by
  have e1 : lastMember unorderedMembers "Name" = some (asc "Name") := by decide
  have e2 : lastMember unorderedMembers "ContentType" = none := by decide
  have e3 : lastMember unorderedMembers "ContentID" = none := by decide
  have e4 : (decodeBase64 corruptBase64).1 = asc "ABC" := by decide
  have e5 : lastMember unorderedMembers "Content" = some corruptBase64 := by decide
  obtain ⟨hb, h2, a2, hu, hv⟩ := unmarshal_keeps_decoded_prefix testHeap {} unorderedMembers
    corruptBase64 stringMembers_unordered e5 (by decide)
  rw [e1, e2, e3, e4] at hv
  exact ⟨stringMembers_unordered, e5, hb, h2, a2, hu, hv⟩

set_option maxRecDepth 100000 in
/-- C11 as stated fails: `QUJD!` is not valid base64, `UnmarshalJSON` returns no error, and
Content is left as "ABC", not as the empty string. -/
theorem unmarshal_content_not_empty :
    (decodeBase64 corruptBase64).2 = some .corruptInput
    ∧ unmarshalView testHeap (attachmentObject (some (asc "Name")) corruptBase64 none none)
        = some ({ Name := some (asc "Name"), Content := some (asc "ABC"),
                  ContentType := none, ContentID := none }, false)
    ∧ asc "ABC" ≠ ([] : GoString) := by
  decide

/-- C12 fails on the code: `MarshalJSON` of an attachment whose Content is nil panics,
whatever the other fields, and `UnmarshalJSON` of an object with no Content member
panics, whatever the other members. -/
theorem absent_content_panics :
    (∀ (h : Heap) (n t i : Option Ptr),
        Attachment.MarshalJSON h { Name := n, Content := none, ContentType := t, ContentID := i }
          = .panic)
    ∧ (∀ (h : Heap) (recv : Attachment) (n t i : Option GoString),
        Attachment.UnmarshalJSON h recv (some (attachmentObjectWithoutContent n t i))
          = .panic) := by
  constructor
  · intro h n t i
    rfl
  · intro h recv n t i
    cases n <;> cases t <;> cases i <;>
      simp [Attachment.UnmarshalJSON, unmarshalAttachmentStruct, attachmentObjectWithoutContent,
        optMember, decodeAttachmentField, km_name, km_type_name, km_type_content, km_type,
        km_id_name, km_id_content, km_id_type, km_id, decodeStringPtr, saveError, Heap.alloc]

end Postmark
